import Mathlib

/-!
# Verification of the face-detection / embedding-matching core

Shallow embedding, in Lean 4, of the computational core of the
AI-Face-Verification-Microservice repository:

* `src/services/faceDetection.js` — quality gate, lighting / blur analysis,
  edge-based face locating (seeding, region growing, geometric filtering,
  face scoring, overlap resolution) and the preprocessing pipeline;
* `src/services/embeddingService.js` — stored-embedding parsing;
* `src/utils/similarity.js` — cosine similarity.

Modelling conventions, used throughout:

* JavaScript numbers are idealized as exact rationals (`ℚ`); the decimal
  literals of the source (`0.1`, `0.08`, `0.3`, …) are written as the exact
  fractions they denote.  Where a special float value (`NaN`, `±Infinity`)
  is itself data of the program (the stored-embedding element check), the
  dedicated type `JsNum` keeps those values distinct.
* The `sharp` image codec is an external collaborator.  An `Image` value
  bundles the deterministic outputs `sharp` produces for one input:
  decoded metadata plus the fixed-size greyscale / edge / RGB resamples the
  pipeline requests.  Pixel buffers are a length together with a total
  lookup function; the JS code never reads past the length of a buffer of
  the stated shape (all out-of-range accesses in the source are guarded,
  and the guards are translated as they stand).
* The JS `while (stack.length > 0)` flood-fill loop is translated as a
  fuel-indexed structural recursion; `growRegion` passes fuel that provably
  dominates the iteration count (one unit per pop, at most `1 + 9·u` pops
  for `u` unvisited in-range indices), so the fuel-exhaustion branch is
  unreachable from `growRegion` and the recursion is an exact rendering of
  the loop.
* `Math.sqrt(d) < r` comparisons (both operands non-negative in every use)
  are carried out by the decidable predicate `sqrtLtQ`; the lemma
  `sqrtLtQ_iff_sqrt_lt` proves it equivalent to the real-number comparison.
-/

set_option allowUnsafeReducibility true in
attribute [semireducible] Rat.add Rat.mul Rat.sub Rat.inv Rat.ofScientific

/-- A single-channel pixel buffer: a length and a total lookup function
(index `i` holds the byte `data i`; the pipeline only reads indices the
source also reads). -/
structure Buf where
  len : ℕ
  data : ℕ → ℕ

/-- The index sequence of the JS loop `for (i = start; i < stop; i += step)`
for a positive `step`: `start, start+step, …` while `< stop`. -/
def stepRange (start stop step : ℤ) : List ℤ :=
  (List.range ((stop - start + step - 1) / step).toNat).map (fun k => start + step * k)

/-- Predicate `sqrtLtQ d r` models the JavaScript comparison `Math.sqrt(d) < r` on
exact rationals: false when `d < 0` (then `Math.sqrt(d)` is `NaN` and every
comparison is false) or `r < 0`, otherwise `d < r²`.  Exactness is proved
in `sqrtLtQ_iff_sqrt_lt`. -/
def sqrtLtQ (d r : ℚ) : Bool :=
  decide (0 ≤ d) && decide (0 ≤ r) && decide (d < r * r)

/-! ## Region growing (`growRegion`, faceDetection.js lines 376–411) -/

/-- The running bounding box and pixel count of `growRegion`. -/
structure GrowRegion where
  minX : ℤ
  maxX : ℤ
  minY : ℤ
  maxY : ℤ
  size : ℕ
deriving DecidableEq, Repr

/-- The eight neighbor offsets in JS push order (`dy` outer from −1 to 1,
`dx` inner from −1 to 1, skipping `(0,0)`). -/
def neighborOffsets : List (ℤ × ℤ) :=
  [(-1, -1), (0, -1), (1, -1), (-1, 0), (1, 0), (-1, 1), (0, 1), (1, 1)]

/-- The eight neighbors of `(x, y)`, in JS push order. -/
def pushNeighbors (x y : ℤ) : List (ℤ × ℤ) :=
  neighborOffsets.map (fun d => (x + d.1, y + d.2))

/-- Number of in-range linear indices not yet visited; `1 + 9 ·` this bounds
the remaining iterations of the flood-fill loop. -/
def unvisitedBound (width height : ℤ) (visited : Finset ℤ) : ℕ :=
  ((Finset.Icc 0 (width * height - 1)) \ visited).card

/-- The `while (stack.length > 0)` loop of `growRegion`.  The list is the JS
array used as a stack (head = top, so pushing the 8 neighbors appends their
reversal).  The skip conditions and the update order are the source's:
visited/bounds check on pop, then the admission-threshold check, then mark
visited, grow the box, push all 8 neighbors unconditionally. -/
def growLoop (buffer : Buf) (width height : ℤ) (threshold : ℕ) :
    ℕ → List (ℤ × ℤ) → Finset ℤ → GrowRegion → GrowRegion × Finset ℤ
  | 0, _, visited, region => (region, visited)
  | _ + 1, [], visited, region => (region, visited)
  | fuel + 1, (x, y) :: rest, visited, region =>
    let index := y * width + x
    if index ∈ visited ∨ x < 0 ∨ width ≤ x ∨ y < 0 ∨ height ≤ y then
      growLoop buffer width height threshold fuel rest visited region
    else if buffer.data index.toNat < threshold then
      growLoop buffer width height threshold fuel rest visited region
    else
      growLoop buffer width height threshold fuel
        ((pushNeighbors x y).reverse ++ rest) (insert index visited)
        { minX := min region.minX x, maxX := max region.maxX x,
          minY := min region.minY y, maxY := max region.maxY y,
          size := region.size + 1 }

/-- Model of `growRegion(buffer, width, height, startX, startY, visited, threshold)`:
stack-based 8-connectivity flood fill from the seed.  Returns the grown
bounding box/size and the updated visited set (the JS function mutates the
shared `visited` set in place; the returned set models that mutation). -/
def growRegion (buffer : Buf) (width height startX startY : ℤ) (visited : Finset ℤ)
    (threshold : ℕ) : GrowRegion × Finset ℤ :=
  growLoop buffer width height threshold (1 + 9 * unvisitedBound width height visited)
    [(startX, startY)] visited
    { minX := startX, maxX := startX, minY := startY, maxY := startY, size := 0 }

/-! ## Candidate seeding and geometric filtering (`findFaceRegions` steps 1–2) -/

/-- A candidate region record as pushed in step 1 of `findFaceRegions`
(lines 315–326): bounding box as `x, y, width = maxX − minX,
height = maxY − minY`, plus pixel count, center and density. -/
structure Region0 where
  x : ℤ
  y : ℤ
  width : ℤ
  height : ℤ
  size : ℕ
  centerX : ℚ
  centerY : ℚ
  density : ℚ
deriving DecidableEq, Repr

/-- Model of `minRegionSize = Math.floor(width * this.minFaceSize)` with
`minFaceSize = 0.1`. -/
def minRegionSizeOf (width : ℤ) : ℤ := ((width : ℚ) * (1 / 10)).floor

/-- One iteration of the seeding double loop of `findFaceRegions` step 1:
skip a visited or sub-threshold pixel, otherwise grow a region and keep it
when `size > minRegionSize² · 0.08`.  The state is the accumulated region
list plus the shared visited set. -/
def seedStep (buffer : Buf) (width height : ℤ) (edgeThreshold regionThreshold : ℕ)
    (m : ℤ) (st : List Region0 × Finset ℤ) (p : ℤ × ℤ) : List Region0 × Finset ℤ :=
  let index := p.2 * width + p.1
  if index ∈ st.2 ∨ buffer.data index.toNat < edgeThreshold then st
  else
    let grown := growRegion buffer width height p.1 p.2 st.2 regionThreshold
    let region := grown.1
    if (m : ℚ) * (m : ℚ) * (8 / 100) < (region.size : ℚ) then
      (st.1 ++ [{ x := region.minX, y := region.minY,
                  width := region.maxX - region.minX,
                  height := region.maxY - region.minY,
                  size := region.size,
                  centerX := ((region.minX : ℚ) + (region.maxX : ℚ)) / 2,
                  centerY := ((region.minY : ℚ) + (region.maxY : ℚ)) / 2,
                  density := (region.size : ℚ) /
                    (((region.maxX - region.minX) * (region.maxY - region.minY) : ℤ) : ℚ) }],
       grown.2)
    else (st.1, grown.2)

/-- The scan points of the seeding double loop: `y` outer then `x` inner,
both from `minRegionSize` to the opposite border on an 8-pixel stride. -/
def seedPoints (width height m : ℤ) : List (ℤ × ℤ) :=
  (stepRange m (height - m) 8).flatMap (fun y =>
    (stepRange m (width - m) 8).map (fun x => (x, y)))

/-- Step 1 of `findFaceRegions`: the candidate regions produced by seeding
and region growing (lines 294–329). -/
def seedRegions (buffer : Buf) (width height : ℤ) (edgeThreshold regionThreshold : ℕ) :
    List Region0 :=
  let m := minRegionSizeOf width
  ((seedPoints width height m).foldl
    (seedStep buffer width height edgeThreshold regionThreshold m) ([], ∅)).1

/-- Step 2 of `findFaceRegions`: the geometric filter (lines 332–347). -/
def geometricOK (m : ℤ) (r : Region0) : Bool :=
  let aspectRatio : ℚ := (r.width : ℚ) / (r.height : ℚ)
  let sizeRatio : ℚ := ((min r.width r.height : ℤ) : ℚ) / ((max r.width r.height : ℤ) : ℚ)
  decide (3 / 5 < aspectRatio) && decide (aspectRatio < 17 / 10) &&
  decide (1 / 2 < sizeRatio) &&
  decide ((m : ℚ) * (8 / 10) < (r.width : ℚ)) &&
  decide ((m : ℚ) * (8 / 10) < (r.height : ℚ)) &&
  decide (1 / 10 < r.density) && decide (r.density < 8 / 10)

/-! ## Face scoring (`calculateFaceScore` and its five sub-scores) -/

/-- Model of `checkSymmetry` (lines 445–464): averaged mirrored edge-intensity
agreement around the region's horizontal center.  The offsets are the
integers `1 ≤ o < min(width/2, 15)` and the rows step by 2; a pair is
compared only under the source's guard `leftIdx ≥ 0 && rightIdx < length`. -/
def checkSymmetry (edgeBuffer : Buf) (width : ℤ) (r : Region0) : ℚ :=
  let centerX : ℤ := (((r.x : ℚ) + (r.x : ℚ) + (r.width : ℚ)) / 2).floor
  let offsets := (stepRange 1 15 1).filter (fun (o : ℤ) =>
    decide ((o : ℚ) < min ((r.width : ℚ) / 2) 15))
  let acc := (stepRange r.y (r.y + r.height) 2).foldl (fun acc y =>
    offsets.foldl (fun (acc : ℚ × ℕ) o =>
      let leftIdx := y * width + (centerX - o)
      let rightIdx := y * width + centerX + o
      if 0 ≤ leftIdx ∧ rightIdx < (edgeBuffer.len : ℤ) then
        let diff : ℤ :=
          |(edgeBuffer.data leftIdx.toNat : ℤ) - (edgeBuffer.data rightIdx.toNat : ℤ)|
        (acc.1 + max 0 (50 - (diff : ℚ)) / 50, acc.2 + 1)
      else acc) acc) ((0 : ℚ), (0 : ℕ))
  if 0 < acc.2 then acc.1 / (acc.2 : ℚ) else 0

/-- The guarded per-pixel test `idx < edgeBuffer.length && edgeBuffer[idx] > t`
of the eye/mouth/edge-distribution scans.  A negative `idx` reads
`undefined` in JS and the comparison is false, hence the `0 ≤ idx`
conjunct. -/
def edgeAbove (edgeBuffer : Buf) (idx : ℤ) (t : ℕ) : Bool :=
  decide (idx < (edgeBuffer.len : ℤ)) && decide (0 ≤ idx) &&
  decide (t < edgeBuffer.data idx.toNat)

/-- Model of `detectEyePatterns` (lines 467–493): maximum count, over rows in the top
40 % of the region (stepping by 2, trimmed 15 % on each side), of pixels
with edge intensity > 40; normalized by `0.7 · width` and capped at 1. -/
def detectEyePatterns (edgeBuffer : Buf) (width : ℤ) (r : Region0) : ℚ :=
  let eyeRegionTop := r.y
  let eyeRegionBottom := r.y + ((r.height : ℚ) * (4 / 10)).floor
  let eyeRegionLeft := r.x + ((r.width : ℚ) * (15 / 100)).floor
  let eyeRegionRight := r.x + r.width - ((r.width : ℚ) * (15 / 100)).floor
  let maxHorizontalEdges := ((stepRange eyeRegionTop eyeRegionBottom 2).map (fun y =>
    ((stepRange eyeRegionLeft eyeRegionRight 1).filter (fun x =>
      edgeAbove edgeBuffer (y * width + x) 40)).length)).foldl max 0
  let expectedEyeWidth := (r.width : ℚ) * (7 / 10)
  min ((maxHorizontalEdges : ℚ) / expectedEyeWidth) 1

/-- Model of `detectMouthPattern` (lines 496–521): same scheme in the bottom 40 %
(rows stepping by 1, trimmed 20 % each side, intensity threshold 35,
normalizer `0.6 · width`). -/
def detectMouthPattern (edgeBuffer : Buf) (width : ℤ) (r : Region0) : ℚ :=
  let mouthRegionTop := r.y + ((r.height : ℚ) * (6 / 10)).floor
  let mouthRegionBottom := r.y + r.height
  let mouthRegionLeft := r.x + ((r.width : ℚ) * (2 / 10)).floor
  let mouthRegionRight := r.x + r.width - ((r.width : ℚ) * (2 / 10)).floor
  let maxMouthEdges := ((stepRange mouthRegionTop mouthRegionBottom 1).map (fun y =>
    ((stepRange mouthRegionLeft mouthRegionRight 1).filter (fun x =>
      edgeAbove edgeBuffer (y * width + x) 35)).length)).foldl max 0
  let expectedMouthWidth := (r.width : ℚ) * (6 / 10)
  min ((maxMouthEdges : ℚ) / expectedMouthWidth) 1

/-- Model of `analyzeEdgeDistribution` (lines 524–559): edge density over the region
plus concentration of edge pixels inside the central disk of radius
`0.3 · min(width, height)`.  The JS distance test
`Math.sqrt((x−cx)² + (y−cy)²) < centerRadius` is `sqrtLtQ`. -/
def analyzeEdgeDistribution (edgeBuffer : Buf) (width : ℤ) (r : Region0) : ℚ :=
  let totalPixels : ℤ := r.width * r.height
  let centerX := r.x + ((r.width : ℚ) / 2).floor
  let centerY := r.y + ((r.height : ℚ) / 2).floor
  let centerRadius : ℚ := ((min r.width r.height : ℤ) : ℚ) * (3 / 10)
  let pts := (stepRange r.y (r.y + r.height) 1).flatMap (fun y =>
    (stepRange r.x (r.x + r.width) 1).map (fun x => (x, y)))
  let counts := pts.foldl (fun (acc : ℕ × ℕ) p =>
    if edgeAbove edgeBuffer (p.2 * width + p.1) 30 then
      let distSq : ℤ := (p.1 - centerX) * (p.1 - centerX) + (p.2 - centerY) * (p.2 - centerY)
      if sqrtLtQ (distSq : ℚ) centerRadius then (acc.1 + 1, acc.2 + 1)
      else (acc.1 + 1, acc.2)
    else acc) ((0 : ℕ), (0 : ℕ))
  let edgeDensity := (counts.1 : ℚ) / (totalPixels : ℚ)
  let centerConcentration := (counts.2 : ℚ) / ((max counts.1 1 : ℕ) : ℚ)
  let densityScore : ℚ := if 1 / 10 < edgeDensity ∧ edgeDensity < 4 / 10 then 1 else 1 / 2
  let concentrationScore : ℚ :=
    if 3 / 10 < centerConcentration then 1 else centerConcentration / (3 / 10)
  (densityScore + concentrationScore) / 2

/-- Model of `calculatePositionScore` (lines 562–572). -/
def calculatePositionScore (r : Region0) (imageWidth imageHeight : ℤ) : ℚ :=
  let centerX := r.centerX / (imageWidth : ℚ)
  let centerY := r.centerY / (imageHeight : ℚ)
  let horizontalScore : ℚ := 1 - |centerX - 1 / 2| * 2
  let verticalScore : ℚ :=
    if centerY < 6 / 10 then 1 else max 0 (1 - (centerY - 6 / 10) * (25 / 10))
  max 0 ((horizontalScore + verticalScore) / 2)

/-- Model of `calculateFaceScore` (lines 414–442): the weighted sum of the five
sub-scores, capped at 1. -/
def calculateFaceScore (edgeBuffer : Buf) (width height : ℤ) (r : Region0) : ℚ :=
  let score :=
    checkSymmetry edgeBuffer width r * (3 / 10) +
    detectEyePatterns edgeBuffer width r * (25 / 100) +
    detectMouthPattern edgeBuffer width r * (2 / 10) +
    analyzeEdgeDistribution edgeBuffer width r * (15 / 100) +
    calculatePositionScore r width height * (1 / 10)
  min score 1

/-! ## Face validation and overlap resolution (`findFaceRegions` steps 3–4) -/

/-- A candidate region after step 3 set its `faceScore` field. -/
structure SRegion where
  x : ℤ
  y : ℤ
  width : ℤ
  height : ℤ
  size : ℕ
  centerX : ℚ
  centerY : ℚ
  density : ℚ
  faceScore : ℚ
deriving DecidableEq, Repr

instance : Inhabited SRegion :=
  ⟨{ x := 0, y := 0, width := 0, height := 0, size := 0,
     centerX := 0, centerY := 0, density := 0, faceScore := 0 }⟩

/-- Step 3 of `findFaceRegions` (lines 350–363): keep the regions whose face
score exceeds 0.3, recording the score on the region. -/
def faceValidate (edgeBuffer : Buf) (width height : ℤ) (regions : List Region0) :
    List SRegion :=
  regions.foldl (fun acc r =>
    let faceScore := calculateFaceScore edgeBuffer width height r
    if 3 / 10 < faceScore then
      acc ++ [{ x := r.x, y := r.y, width := r.width, height := r.height,
                size := r.size, centerX := r.centerX, centerY := r.centerY,
                density := r.density, faceScore := faceScore }]
    else acc) []

/-- Model of `calculateOverlapArea` (lines 610–627): rectangle intersection area. -/
def calculateOverlapArea (region1 region2 : SRegion) : ℤ :=
  let left := max region1.x region2.x
  let right := min (region1.x + region1.width) (region2.x + region2.width)
  let top := max region1.y region2.y
  let bottom := min (region1.y + region1.height) (region2.y + region2.height)
  if left < right ∧ top < bottom then (right - left) * (bottom - top) else 0

/-- The inner loop of `removeOverlappingRegions`: does `region` overlap any
already-accepted region by more than 30 % of the smaller area? -/
def overlapsExisting (region : SRegion) (finalRegions : List SRegion) : Bool :=
  finalRegions.any (fun existing =>
    let overlapArea := calculateOverlapArea region existing
    let minArea := min (region.width * region.height) (existing.width * existing.height)
    decide (3 / 10 < (overlapArea : ℚ) / (minArea : ℚ)))

/-- The greedy acceptance loop of `removeOverlappingRegions`. -/
def acceptRegions : List SRegion → List SRegion → List SRegion
  | finalRegions, [] => finalRegions
  | finalRegions, region :: rest =>
    if overlapsExisting region finalRegions then acceptRegions finalRegions rest
    else acceptRegions (finalRegions ++ [region]) rest

/-- The JS sort comparator `(b.faceScore || 0) - (a.faceScore || 0)` keeps
`a` before `b` exactly when it is `≤ 0`, i.e. when `b.faceScore ≤
a.faceScore` (the score field is always set by `faceValidate`). -/
def scoreLe (a b : SRegion) : Bool := decide (b.faceScore ≤ a.faceScore)

/-- Model of `removeOverlappingRegions` (lines 575–607): sort by descending face
score (ES2019 `Array.prototype.sort` is stable; `List.mergeSort` is the
stable sort for the comparator above), then greedily accept each region
unless it overlaps an accepted one by more than 30 % of the smaller area. -/
def removeOverlappingRegions (regions : List SRegion) : List SRegion :=
  if regions.length ≤ 1 then regions
  else acceptRegions [] (regions.mergeSort scoreLe)

/-- Model of `findFaceRegions` (lines 287–373): seeding + growing, geometric filter,
face-score validation, overlap resolution. -/
def findFaceRegions (edgeBuffer : Buf) (width height : ℤ)
    (edgeThreshold regionThreshold : ℕ) : List SRegion :=
  let m := minRegionSizeOf width
  removeOverlappingRegions (faceValidate edgeBuffer width height
    ((seedRegions edgeBuffer width height edgeThreshold regionThreshold).filter
      (geometricOK m)))

/-! ## The detection driver and the surrounding pipeline -/

/-- Reasons of the quality-gate `ValidationError`s, in source check order. -/
inductive ValidationReason where
  | badFormat
  | lowResolution
  | highResolution
  | badAspectRatio
  | fileTooLarge
  | fileTooSmall
  | corrupted
deriving DecidableEq, Repr

/-- Reasons of the `LightingError`s. -/
inductive LightingReason where
  | tooDark
  | tooBright
  | lowContrast
deriving DecidableEq, Repr

/-- The error taxonomy of the pipeline (each constructor corresponds to one
`throw` site of the source). -/
inductive PipeError where
  | validation (reason : ValidationReason)
  | lighting (reason : LightingReason)
  | blur
  | noFace
  | multipleFaces (count : ℕ)
  | invalidDimensions
  | imageTooSmall
  | sizeMismatch
deriving DecidableEq, Repr

/-- Model of `this.edgeThresholds` zipped with `this.regionThresholds` (constructor,
lines 12–13): the ordered `(edgeThreshold, regionThreshold)` pass list. -/
def thresholdPairs : List (ℕ × ℕ) := [(40, 25), (30, 20), (20, 15)]

/-- Model of `this.maxFaces`. -/
def maxFaces : ℕ := 1

/-- The multi-pass loop of `detectFacesInImage` (lines 241–263): run the
passes in order while the accumulated region list is empty. -/
def detectLoop (edgeBuffer : Buf) : List SRegion → List (ℕ × ℕ) → List SRegion
  | faceRegions, [] => faceRegions
  | faceRegions, (eThr, rThr) :: rest =>
    if faceRegions.length = 0 then
      detectLoop edgeBuffer (findFaceRegions edgeBuffer 400 400 eThr rThr) rest
    else faceRegions

/-- Model of `detectFacesInImage` (lines 223–284), as a function of the 400×400 edge
buffer the external codec produces: multi-pass detection, then the outcome
policy (`0` regions → no-face error, more than `maxFaces` → multiple-faces
error with the count, otherwise the first region). -/
def detectFacesInImage (edgeBuffer : Buf) : Except PipeError SRegion :=
  let faceRegions := detectLoop edgeBuffer [] thresholdPairs
  if faceRegions.length = 0 then .error .noFace
  else if maxFaces < faceRegions.length then .error (.multipleFaces faceRegions.length)
  else .ok faceRegions.headI

/-- The outcome policy of the spec, applied to the first non-empty pass:
more than one region fails with the multiple-faces error carrying the
count, exactly one returns that region. -/
def detectOutcome (regions : List SRegion) : Except PipeError SRegion :=
  if 1 < regions.length then .error (.multipleFaces regions.length) else .ok regions.headI

/-- Modelled from the spec's words (§4.4 multi-pass detection and outcome
policy), for the refinement claim C4: take the first pass, in the fixed
threshold order, whose region set is non-empty; fail with the no-face error
when all passes are empty, and apply the outcome policy to the first
non-empty pass otherwise. -/
def detectFacesSpec (edgeBuffer : Buf) : Except PipeError SRegion :=
  let passResults := thresholdPairs.map (fun p => findFaceRegions edgeBuffer 400 400 p.1 p.2)
  (((passResults.find? (fun rs => !rs.isEmpty)).map detectOutcome).getD (.error .noFace))

/-- Decoded image metadata from the external codec (`sharp(..).metadata()`).
`width`/`height` are 0 when the codec cannot read the dimension (the JS
falsiness checks `!metadata.width` treat `undefined` and `0` alike). -/
structure ImageMeta where
  width : ℕ
  height : ℕ
  format : String

/-- One input image together with the deterministic resamples the external
codec produces for it on request. -/
structure Image where
  meta : ImageMeta
  byteLength : ℕ
  gray224 : Buf
  gray300 : Buf
  edge400 : Buf
  rgb112 : Buf

/-- Sum of pixels over a buffer. -/
def bufSum (b : Buf) : ℕ := ((List.range b.len).map b.data).sum

/-- Sum of squared pixels over a buffer. -/
def bufSumSquares (b : Buf) : ℕ := ((List.range b.len).map (fun i => b.data i * b.data i)).sum

/-- Statistics of `analyzeImageStats` (lines 75–102).  The source returns
`{mean, std}` with `std = Math.sqrt(variance)`; the only consumer compares
`std` against thresholds, so the variance is carried and the comparison
goes through `sqrtLtQ`. -/
structure ImageStats where
  mean : ℚ
  variance : ℚ

/-- Model of `analyzeImageStats`: mean and variance of the 224×224 greyscale
downsample. -/
def analyzeImageStats (pixels : Buf) : ImageStats :=
  let mean := (bufSum pixels : ℚ) / (pixels.len : ℚ)
  { mean := mean, variance := (bufSumSquares pixels : ℚ) / (pixels.len : ℚ) - mean * mean }

/-- Model of `validateLightingConditions` (lines 138–160); the contrast argument is
the variance whose square root the source compares against 15. -/
def validateLightingConditions (brightness contrastVariance : ℚ) : Except PipeError Unit :=
  if brightness < 30 then .error (.lighting .tooDark)
  else if 200 < brightness then .error (.lighting .tooBright)
  else if sqrtLtQ contrastVariance 15 then .error (.lighting .lowContrast)
  else .ok ()

/-- The fixed Laplacian kernel of `calculateLaplacianVariance`. -/
def laplacianKernel : List (List ℤ) := [[0, -1, 0], [-1, 4, -1], [0, -1, 0]]

/-- The kernel response at interior pixel `(x, y)`. -/
def laplacianResponse (b : Buf) (width : ℤ) (x y : ℤ) : ℤ :=
  ((stepRange (-1) 2 1).map (fun ky =>
    ((stepRange (-1) 2 1).map (fun kx =>
      (b.data ((y + ky) * width + (x + kx)).toNat : ℤ) *
        ((laplacianKernel.getD (ky + 1).toNat []).getD (kx + 1).toNat 0))).sum)).sum

/-- Model of `calculateLaplacianVariance` (lines 195–220): `Σ response²` over the
interior, divided by the interior pixel count. -/
def calculateLaplacianVariance (b : Buf) (width height : ℤ) : ℚ :=
  let pts := (stepRange 1 (height - 1) 1).flatMap (fun y =>
    (stepRange 1 (width - 1) 1).map (fun x => (x, y)))
  let variance : ℤ := (pts.map (fun p =>
    let s := laplacianResponse b width p.1 p.2
    s * s)).sum
  (variance : ℚ) / (pts.length : ℚ)

/-- Model of `this.blurThreshold`. -/
def blurThreshold : ℕ := 100

/-- Model of `validateImageSharpness` (lines 163–192) as a function of the 300×300
greyscale downsample. -/
def validateImageSharpness (img : Image) : Except PipeError Unit :=
  if calculateLaplacianVariance img.gray300 300 300 < (blurThreshold : ℚ) then .error .blur
  else .ok ()

/-- The supported-format list of `validateImageQuality`. -/
def supportedFormats : List String := ["jpeg", "jpg", "png", "webp"]

/-- Model of `validateImageQuality` (lines 655–731), in source check order: format,
resolution floor (`min < 150 ∨ max < 200`), resolution ceiling, aspect
ratio, file-size ceiling and floor, corruption. -/
def validateImageQuality (img : Image) : Except PipeError Unit :=
  if ¬ supportedFormats.contains img.meta.format.toLower then
    .error (.validation .badFormat)
  else
    let minDimension := min img.meta.width img.meta.height
    let maxDimension := max img.meta.width img.meta.height
    if minDimension < 150 ∨ maxDimension < 200 then .error (.validation .lowResolution)
    else if 4000 < img.meta.width ∨ 4000 < img.meta.height then
      .error (.validation .highResolution)
    else
      let aspectRatio : ℚ := (img.meta.width : ℚ) / (img.meta.height : ℚ)
      if aspectRatio < 1 / 2 ∨ 2 < aspectRatio then .error (.validation .badAspectRatio)
      else if 10 * 1024 * 1024 < img.byteLength then .error (.validation .fileTooLarge)
      else if img.byteLength < 2048 then .error (.validation .fileTooSmall)
      else if img.meta.width = 0 ∨ img.meta.height = 0 then .error (.validation .corrupted)
      else .ok ()

/-- Model of `validateFaceCharacteristics` (lines 630–652) only logs and returns
`true`. -/
def validateFaceCharacteristics (_img : Image) : Except PipeError Bool := .ok true

/-- Model of `sharpBasedFaceDetection` (lines 105–135): lighting, blur, face
detection, face characteristics, in that order. -/
def sharpBasedFaceDetection (img : Image) : Except PipeError Bool := do
  let stats := analyzeImageStats img.gray224
  validateLightingConditions stats.mean stats.variance
  validateImageSharpness img
  let _ ← detectFacesInImage img.edge400
  let _ ← validateFaceCharacteristics img
  pure true

/-- Model of `detectFace` (lines 63–72) delegates to `sharpBasedFaceDetection`. -/
def detectFace (img : Image) : Except PipeError Bool := sharpBasedFaceDetection img

/-- Model of `this.targetSize`. -/
def targetSize : ℕ := 112

/-- Model of `preprocessImage` (lines 17–60): reject unreadable dimensions, then the
50×50 floor, then hand back the codec's 112×112 RGB resample after checking
it has exactly `112·112·3` bytes. -/
def preprocessImage (img : Image) : Except PipeError Buf :=
  if img.meta.width = 0 ∨ img.meta.height = 0 then .error .invalidDimensions
  else if img.meta.width < 50 ∨ img.meta.height < 50 then .error .imageTooSmall
  else
    let processedImage := img.rgb112
    if processedImage.len ≠ targetSize * targetSize * 3 then .error .sizeMismatch
    else .ok processedImage

/-- Model of `processFaceImage` (lines 734–779): quality gate, then the pixel-level
detection chain, then preprocessing; the first failure aborts the
pipeline. -/
def processFaceImage (img : Image) : Except PipeError Buf := do
  validateImageQuality img
  let _ ← detectFace img
  preprocessImage img

/-! ## Cosine similarity (`similarity.js` lines 6–60) -/

/-- Errors of `calculateCosineSimilarity`, named as in the spec taxonomy. -/
inductive SimilarityError where
  | dimensionMismatch
  | emptyVector
  | zeroVector
deriving DecidableEq, Repr

/-- The dot-product loop `Σ vectorA[i] * vectorB[i]`. -/
noncomputable def dotProduct (vectorA vectorB : List ℝ) : ℝ :=
  (List.zipWith (· * ·) vectorA vectorB).sum

/-- The magnitude accumulation `Σ v[i] * v[i]` (before the square root). -/
noncomputable def sumOfSquares (vector : List ℝ) : ℝ :=
  (vector.map (fun v => v * v)).sum

open Classical in
/-- Model of `calculateCosineSimilarity`: dimension and emptiness checks, zero-
magnitude check on the square roots, then the clamped normalized dot
product `Math.max(-1, Math.min(1, dot / (|a|·|b|)))`.  JS floats are
idealized as reals. -/
noncomputable def calculateCosineSimilarity (vectorA vectorB : List ℝ) :
    Except SimilarityError ℝ :=
  if vectorA.length ≠ vectorB.length then .error .dimensionMismatch
  else if vectorA.length = 0 then .error .emptyVector
  else
    let magnitudeA := Real.sqrt (sumOfSquares vectorA)
    let magnitudeB := Real.sqrt (sumOfSquares vectorB)
    if magnitudeA = 0 ∨ magnitudeB = 0 then .error .zeroVector
    else .ok (max (-1) (min 1 (dotProduct vectorA vectorB / (magnitudeA * magnitudeB))))

/-! ## Stored-embedding parsing (`embeddingService.js` lines 978–1019) -/

/-- A JavaScript number at the embedding boundary: an exact finite value or
one of the special float values.  `JSON.parse` only produces finite values;
the special values can enter through the already-decoded-array branch. -/
inductive JsNum where
  | finite (val : ℚ)
  | posInf
  | negInf
  | nan
deriving DecidableEq, Repr

/-- A decoded JSON-ish JavaScript value, as far as `parseStoredEmbedding`
can observe one. -/
inductive Jv where
  | num (n : JsNum)
  | str (s : String)
  | bool (b : Bool)
  | null
  | arr (elems : List Jv)

/-- JSON whitespace. -/
def isWsChar (c : Char) : Bool := c = ' ' || c = '\t' || c = '\n' || c = '\r'

/-- Drop leading JSON whitespace. -/
def skipWs (cs : List Char) : List Char := cs.dropWhile isWsChar

/-- Decimal digits to a natural number. -/
def digitsToNat (ds : List Char) : ℕ :=
  ds.foldl (fun n c => 10 * n + (c.toNat - '0'.toNat)) 0

/-- Parse the optional exponent part of a JSON number (`e`/`E`, optional
sign, digits); yields the signed exponent and the remaining input. -/
def parseExpPart (cs : List Char) : Option (ℤ × List Char) :=
  match cs with
  | 'e' :: t | 'E' :: t =>
    match t with
    | '-' :: u =>
      let ds := u.takeWhile Char.isDigit
      if ds.isEmpty then none else some (-(digitsToNat ds : ℤ), u.dropWhile Char.isDigit)
    | '+' :: u =>
      let ds := u.takeWhile Char.isDigit
      if ds.isEmpty then none else some ((digitsToNat ds : ℤ), u.dropWhile Char.isDigit)
    | u =>
      let ds := u.takeWhile Char.isDigit
      if ds.isEmpty then none else some ((digitsToNat ds : ℤ), u.dropWhile Char.isDigit)
  | _ => some (0, cs)

/-- Power of ten `10^e` as an exact rational, for a signed exponent. -/
def ratPow10 (e : ℤ) : ℚ :=
  if 0 ≤ e then (10 : ℚ) ^ e.toNat else ((10 : ℚ) ^ (-e).toNat)⁻¹

/-- Parse a JSON number literal to an exact rational.  (The model keeps the
exact value; float rounding/overflow of the JS engine is not modelled.) -/
def parseNumber (cs : List Char) : Option (ℚ × List Char) :=
  let neg : Bool := match cs with | '-' :: _ => true | _ => false
  let cs1 : List Char := match cs with | '-' :: t => t | _ => cs
  let intDigits := cs1.takeWhile Char.isDigit
  let cs2 := cs1.dropWhile Char.isDigit
  if intDigits.isEmpty then none
  else
    let fracDigits : List Char := match cs2 with
      | '.' :: t => t.takeWhile Char.isDigit
      | _ => []
    let fracOk : Bool := match cs2 with
      | '.' :: t => !(t.takeWhile Char.isDigit).isEmpty
      | _ => true
    let cs3 : List Char := match cs2 with
      | '.' :: t => t.dropWhile Char.isDigit
      | _ => cs2
    if !fracOk then none
    else
      match parseExpPart cs3 with
      | none => none
      | some (e, cs4) =>
        let mantissa : ℚ :=
          (digitsToNat (intDigits ++ fracDigits) : ℚ) / (10 : ℚ) ^ fracDigits.length
        let val := mantissa * ratPow10 e
        some (if neg then -val else val, cs4)

/-- Parse the body of a JSON string literal (after the opening quote),
accumulating decoded characters; a restricted escape model (`\n`, `\t`,
`\r` decoded, any other escaped character stands for itself — covering
`\"`, `\\` and `\/`; `\u` sequences are not modelled). -/
def parseStringBody : ℕ → List Char → List Char → Option (String × List Char)
  | 0, _, _ => none
  | _ + 1, [], _ => none
  | fuel + 1, c :: t, acc =>
    if c = '"' then some (String.mk acc.reverse, t)
    else if c = '\\' then
      match t with
      | [] => none
      | e :: u =>
        let decoded : Char :=
          if e = 'n' then '\n' else if e = 't' then '\t' else if e = 'r' then '\r' else e
        parseStringBody fuel u (decoded :: acc)
    else parseStringBody fuel t (c :: acc)

/-- Parse one scalar JSON value (string, `true`, `false`, `null`, number). -/
def parseScalar (fuel : ℕ) (cs : List Char) : Option (Jv × List Char) :=
  match cs with
  | '"' :: t => (parseStringBody fuel t []).map (fun r => (Jv.str r.1, r.2))
  | 't' :: 'r' :: 'u' :: 'e' :: t => some (Jv.bool true, t)
  | 'f' :: 'a' :: 'l' :: 's' :: 'e' :: t => some (Jv.bool false, t)
  | 'n' :: 'u' :: 'l' :: 'l' :: t => some (Jv.null, t)
  | _ => (parseNumber cs).map (fun r => (Jv.num (JsNum.finite r.1), r.2))

/-- Parse the comma-separated items of a non-empty JSON array up to and
including the closing bracket. -/
def parseItems : ℕ → List Char → Option (List Jv × List Char)
  | 0, _ => none
  | fuel + 1, cs =>
    match parseScalar (fuel + 1) (skipWs cs) with
    | none => none
    | some (v, rest) =>
      match skipWs rest with
      | ',' :: t => (parseItems fuel t).map (fun r => (v :: r.1, r.2))
      | ']' :: t => some ([v], t)
      | _ => none

/-- Restricted executable model of the JavaScript `JSON.parse` builtin (an
external platform primitive, not repository code), covering the value
shapes the embedding strings use: a flat array of scalars, or one scalar.
`none` models a thrown `SyntaxError`. -/
def jsonParse (s : String) : Option Jv :=
  let cs := skipWs s.data
  match cs with
  | '[' :: t =>
    match skipWs t with
    | ']' :: u => if (skipWs u).isEmpty then some (Jv.arr []) else none
    | u =>
      match parseItems (s.data.length + 1) u with
      | some (items, rest) => if (skipWs rest).isEmpty then some (Jv.arr items) else none
      | none => none
  | _ =>
    match parseScalar (s.data.length + 1) cs with
    | some (v, rest) => if (skipWs rest).isEmpty then some v else none
    | none => none

/-- The duck-typed input of `parseStoredEmbedding`: a string, an
already-decoded array, or anything else. -/
inductive EmbeddingInput where
  | str (s : String)
  | arr (elems : List Jv)
  | other

/-- The failure reasons of `parseStoredEmbedding` (every one is surfaced as
the single wrapped `Invalid embedding format: …` error — the spec's
`EmbeddingFormatError`). -/
inductive EmbeddingFormatError where
  | invalidInput
  | jsonParseFailed
  | notAnArray
  | nonNumericValues
  | unusualSize (n : ℕ)
deriving DecidableEq, Repr

/-- The element check `typeof val === "number" && !isNaN(val)` (the filter
keeps the failures; `isNaN` is false on `±Infinity`). -/
def isNumericElement (v : Jv) : Bool :=
  match v with
  | .num .nan => false
  | .num _ => true
  | _ => false

/-- The validation half of `parseStoredEmbedding` (lines 993–1014): must be
an array, all elements numbers that are not `NaN`, length within
`[64, 2048]`; returns the parsed array unchanged. -/
def validateParsedEmbedding (parsed : Jv) : Except EmbeddingFormatError (List Jv) :=
  match parsed with
  | .arr elems =>
    let invalidElements := elems.filter (fun v => !isNumericElement v)
    if 0 < invalidElements.length then .error .nonNumericValues
    else if elems.length < 64 ∨ 2048 < elems.length then .error (.unusualSize elems.length)
    else .ok elems
  | _ => .error .notAnArray

/-- Model of `parseStoredEmbedding` (lines 978–1019): strings go through
`JSON.parse`, arrays are taken as they are, anything else is rejected;
then the validation above. -/
def parseStoredEmbedding (input : EmbeddingInput) : Except EmbeddingFormatError (List Jv) :=
  match input with
  | .str s =>
    match jsonParse s with
    | none => .error .jsonParseFailed
    | some parsed => validateParsedEmbedding parsed
  | .arr elems => validateParsedEmbedding (Jv.arr elems)
  | .other => .error .invalidInput

/-! ## Auxiliary notions used only by the theorems -/

/-- Model of `goodPt buffer width height threshold p`: pixel `p` is in bounds and at
or above the admission threshold — exactly the pixels `growLoop` marks. -/
def goodPt (buffer : Buf) (width height : ℤ) (threshold : ℕ) (p : ℤ × ℤ) : Prop :=
  0 ≤ p.1 ∧ p.1 < width ∧ 0 ≤ p.2 ∧ p.2 < height ∧
    threshold ≤ buffer.data (p.2 * width + p.1).toNat

/-- The linear index of a pixel. -/
def idxOf (width : ℤ) (p : ℤ × ℤ) : ℤ := p.2 * width + p.1

/-- Eight-connectivity reachability through `good` pixels, starting from a good
seed. -/
inductive Reach (good : ℤ × ℤ → Prop) (seed : ℤ × ℤ) : ℤ × ℤ → Prop
  | refl : good seed → Reach good seed seed
  | step {p q : ℤ × ℤ} : Reach good seed p → q ∈ pushNeighbors p.1 p.2 → good q →
      Reach good seed q

/-- The solid-square test buffer of the spec's RegionGrower property: the
axis-aligned square `[x0, x0+s) × [y0, y0+s)` at intensity 200 on a 0
background, row-major with the given row width. -/
def squareBuf (width height x0 y0 s : ℤ) : Buf :=
  { len := (width * height).toNat,
    data := fun i =>
      if x0 ≤ (i : ℤ) % width ∧ (i : ℤ) % width < x0 + s ∧
         y0 ≤ (i : ℤ) / width ∧ (i : ℤ) / width < y0 + s then 200 else 0 }

/-- Membership in the test square. -/
def inSquare (x0 y0 s : ℤ) (p : ℤ × ℤ) : Prop :=
  x0 ≤ p.1 ∧ p.1 < x0 + s ∧ y0 ≤ p.2 ∧ p.2 < y0 + s

/-! ## Concrete instances used by counterexamples and witnesses -/

/-- A 10×10 edge buffer holding a solid 2×2 block of intensity 200 with its
top-left pixel at (1,1) (linear indices 11, 12, 21, 22). -/
def c2buf : Buf :=
  { len := 100, data := fun i => if i = 11 ∨ i = 12 ∨ i = 21 ∨ i = 22 then 200 else 0 }

/-- The higher-scoring region of the C3 instances. -/
def c3a : SRegion :=
  { x := 0, y := 0, width := 10, height := 10, size := 100, centerX := 5, centerY := 5,
    density := 1, faceScore := 1 / 2 }

/-- A region overlapping `c3a` by exactly 30 % of the smaller area. -/
def c3b : SRegion :=
  { x := 7, y := 0, width := 10, height := 10, size := 100, centerX := 12, centerY := 5,
    density := 1, faceScore := 1 / 4 }

/-- A region overlapping `c3a` by 80 % of the smaller area. -/
def c3c : SRegion :=
  { x := 2, y := 0, width := 10, height := 10, size := 100, centerX := 7, centerY := 5,
    density := 1, faceScore := 1 / 4 }

/-- The all-zero empty buffer (placeholder pixel data for witnesses). -/
def zeroBuf : Buf := { len := 0, data := fun _ => 0 }

/-- A 100×300 PNG test image (minimum dimension below the 150 floor). -/
def c6img : Image :=
  { meta := { width := 100, height := 300, format := "png" }, byteLength := 5000,
    gray224 := zeroBuf, gray300 := zeroBuf, edge400 := zeroBuf, rgb112 := zeroBuf }

/-- A 60×60 image whose RGB resample honors the codec contract. -/
def c10img : Image :=
  { meta := { width := 60, height := 60, format := "png" }, byteLength := 5000,
    gray224 := zeroBuf, gray300 := zeroBuf, edge400 := zeroBuf,
    rgb112 := { len := 37632, data := fun _ => 0 } }

/-! # Theorems

Helper lemmas first, then one theorem per claim (witnesses and
counterexamples where required). -/

/-- Unfolding lemma for one `growLoop` iteration. -/
theorem growLoop_cons (buffer : Buf) (width height : ℤ) (threshold fuel : ℕ)
    (x y : ℤ) (rest : List (ℤ × ℤ)) (visited : Finset ℤ) (region : GrowRegion) :
    growLoop buffer width height threshold (fuel + 1) ((x, y) :: rest) visited region =
      (if y * width + x ∈ visited ∨ x < 0 ∨ width ≤ x ∨ y < 0 ∨ height ≤ y then
        growLoop buffer width height threshold fuel rest visited region
      else if buffer.data (y * width + x).toNat < threshold then
        growLoop buffer width height threshold fuel rest visited region
      else
        growLoop buffer width height threshold fuel
          ((pushNeighbors x y).reverse ++ rest) (insert (y * width + x) visited)
          { minX := min region.minX x, maxX := max region.maxX x,
            minY := min region.minY y, maxY := max region.maxY y,
            size := region.size + 1 }) := rfl

/-- An in-bounds pixel's linear index lies in `[0, width·height)`. -/
theorem index_mem_Icc {width height x y : ℤ} (hx : 0 ≤ x) (hx' : x < width)
    (hy : 0 ≤ y) (hy' : y < height) :
    y * width + x ∈ Finset.Icc 0 (width * height - 1) := by
  rw [Finset.mem_Icc]
  constructor
  · have := mul_nonneg hy (le_of_lt (lt_of_le_of_lt hx hx'))
    omega
  · nlinarith

/-- Inserting an unvisited in-range index decrements the fuel bound. -/
theorem unvisitedBound_insert {width height : ℤ} {visited : Finset ℤ} {i : ℤ}
    (hmem : i ∈ Finset.Icc 0 (width * height - 1)) (hni : i ∉ visited) :
    unvisitedBound width height (insert i visited) + 1 =
      unvisitedBound width height visited := by
  unfold unvisitedBound
  have hmem' : i ∈ Finset.Icc 0 (width * height - 1) \ visited :=
    Finset.mem_sdiff.mpr ⟨hmem, hni⟩
  rw [Finset.sdiff_insert, Finset.card_erase_of_mem hmem']
  have hpos : 0 < (Finset.Icc 0 (width * height - 1) \ visited).card :=
    Finset.card_pos.mpr ⟨i, hmem'⟩
  omega

/-- The visited set only grows along `growLoop`. -/
theorem growLoop_visited_subset (buffer : Buf) (width height : ℤ) (threshold : ℕ) :
    ∀ (fuel : ℕ) (stack : List (ℤ × ℤ)) (visited : Finset ℤ) (region : GrowRegion),
      visited ⊆ (growLoop buffer width height threshold fuel stack visited region).2
  | 0, _, _, _ => fun _ h => h
  | _ + 1, [], _, _ => fun _ h => h
  | fuel + 1, (x, y) :: rest, visited, region => by
    rw [growLoop_cons]
    by_cases h1 : y * width + x ∈ visited ∨ x < 0 ∨ width ≤ x ∨ y < 0 ∨ height ≤ y
    · rw [if_pos h1]
      exact growLoop_visited_subset buffer width height threshold fuel rest visited region
    · rw [if_neg h1]
      by_cases h2 : buffer.data (y * width + x).toNat < threshold
      · rw [if_pos h2]
        exact growLoop_visited_subset buffer width height threshold fuel rest visited region
      · rw [if_neg h2]
        exact (Finset.subset_insert _ _).trans
          (growLoop_visited_subset buffer width height threshold fuel _ _ _)

/-- The bounding box only widens along `growLoop`. -/
theorem growLoop_box_mono (buffer : Buf) (width height : ℤ) (threshold : ℕ) :
    ∀ (fuel : ℕ) (stack : List (ℤ × ℤ)) (visited : Finset ℤ) (region : GrowRegion),
      (growLoop buffer width height threshold fuel stack visited region).1.minX ≤ region.minX ∧
      region.maxX ≤ (growLoop buffer width height threshold fuel stack visited region).1.maxX ∧
      (growLoop buffer width height threshold fuel stack visited region).1.minY ≤ region.minY ∧
      region.maxY ≤ (growLoop buffer width height threshold fuel stack visited region).1.maxY
  | 0, _, _, region => ⟨le_refl _, le_refl _, le_refl _, le_refl _⟩
  | _ + 1, [], _, region => ⟨le_refl _, le_refl _, le_refl _, le_refl _⟩
  | fuel + 1, (x, y) :: rest, visited, region => by
    rw [growLoop_cons]
    by_cases h1 : y * width + x ∈ visited ∨ x < 0 ∨ width ≤ x ∨ y < 0 ∨ height ≤ y
    · rw [if_pos h1]
      exact growLoop_box_mono buffer width height threshold fuel rest visited region
    · rw [if_neg h1]
      by_cases h2 : buffer.data (y * width + x).toNat < threshold
      · rw [if_pos h2]
        exact growLoop_box_mono buffer width height threshold fuel rest visited region
      · rw [if_neg h2]
        obtain ⟨a, b, c, d⟩ := growLoop_box_mono buffer width height threshold fuel
          ((pushNeighbors x y).reverse ++ rest) (insert (y * width + x) visited)
          { minX := min region.minX x, maxX := max region.maxX x,
            minY := min region.minY y, maxY := max region.maxY y,
            size := region.size + 1 }
        exact ⟨le_trans a (min_le_left _ _), le_trans (le_max_left _ _) b,
          le_trans c (min_le_left _ _), le_trans (le_max_left _ _) d⟩

/-- Linear indices are injective on in-bounds pixels. -/
theorem idxOf_inj {width : ℤ} {p q : ℤ × ℤ}
    (hp : 0 ≤ p.1) (hp' : p.1 < width) (hq : 0 ≤ q.1) (hq' : q.1 < width)
    (h : idxOf width p = idxOf width q) : p = q := by
  unfold idxOf at h
  have hw : (0 : ℤ) < width := lt_of_le_of_lt hp hp'
  have hx : p.1 = q.1 := by
    have e1 : (p.1 + width * p.2) % width = p.1 := by
      rw [Int.add_mul_emod_self_left, Int.emod_eq_of_lt hp hp']
    have e2 : (q.1 + width * q.2) % width = q.1 := by
      rw [Int.add_mul_emod_self_left, Int.emod_eq_of_lt hq hq']
    have h' : p.1 + width * p.2 = q.1 + width * q.2 := by linarith [h]
    rw [← e1, ← e2, h']
  have hy : p.2 = q.2 := by
    have : p.2 * width = q.2 * width := by omega
    exact mul_right_cancel₀ (ne_of_gt hw) this
  exact Prod.ext hx hy

/-- Every good pixel sitting on the stack ends up visited, provided the fuel
dominates the iteration count. -/
theorem growLoop_stack_mem (buffer : Buf) (width height : ℤ) (threshold : ℕ) :
    ∀ (fuel : ℕ) (stack : List (ℤ × ℤ)) (visited : Finset ℤ) (region : GrowRegion),
      stack.length + 9 * unvisitedBound width height visited ≤ fuel →
      ∀ q ∈ stack, goodPt buffer width height threshold q →
        idxOf width q ∈ (growLoop buffer width height threshold fuel stack visited region).2
  | 0, stack, _, _ => by
    intro hf q hq _
    have : stack.length = 0 := by omega
    rw [List.length_eq_zero] at this
    subst this
    exact absurd hq (List.not_mem_nil q)
  | _ + 1, [], _, _ => by
    intro _ q hq _
    exact absurd hq (List.not_mem_nil q)
  | fuel + 1, (x, y) :: rest, visited, region => by
    intro hf q hq hgood
    rw [growLoop_cons]
    by_cases h1 : y * width + x ∈ visited ∨ x < 0 ∨ width ≤ x ∨ y < 0 ∨ height ≤ y
    · rw [if_pos h1]
      rcases List.mem_cons.mp hq with hq | hq
      · -- popped pixel: being good, the only applicable skip reason is "visited"
        subst hq
        have hgx0 : (0 : ℤ) ≤ x := hgood.1
        have hgxw : x < width := hgood.2.1
        have hgy0 : (0 : ℤ) ≤ y := hgood.2.2.1
        have hgyh : y < height := hgood.2.2.2.1
        have hv : y * width + x ∈ visited := by
          rcases h1 with h | h | h | h | h
          · exact h
          · exact absurd h (by omega)
          · exact absurd h (by omega)
          · exact absurd h (by omega)
          · exact absurd h (by omega)
        exact growLoop_visited_subset buffer width height threshold fuel rest visited region hv
      · exact growLoop_stack_mem buffer width height threshold fuel rest visited region
          (by simp only [List.length_cons] at hf; omega) q hq hgood
    · rw [if_neg h1]
      push_neg at h1
      obtain ⟨hnv, hx0, hxw, hy0, hyh⟩ := h1
      by_cases h2 : buffer.data (y * width + x).toNat < threshold
      · rw [if_pos h2]
        rcases List.mem_cons.mp hq with hq | hq
        · subst hq
          have hg5 : threshold ≤ buffer.data (y * width + x).toNat := hgood.2.2.2.2
          exact absurd h2 (by omega)
        · exact growLoop_stack_mem buffer width height threshold fuel rest visited region
            (by simp only [List.length_cons] at hf; omega) q hq hgood
      · rw [if_neg h2]
        have hicc := index_mem_Icc hx0 hxw hy0 hyh
        have hdec := unvisitedBound_insert hicc hnv
        have hf' : ((pushNeighbors x y).reverse ++ rest).length +
            9 * unvisitedBound width height (insert (y * width + x) visited) ≤ fuel := by
          have hlen : ((pushNeighbors x y).reverse ++ rest).length = 8 + rest.length := by
            simp [pushNeighbors, neighborOffsets]
            omega
          rw [hlen]
          simp only [List.length_cons] at hf
          omega
        rcases List.mem_cons.mp hq with hq | hq
        · subst hq
          exact growLoop_visited_subset buffer width height threshold fuel _ _ _
            (Finset.mem_insert_self _ _)
        · exact growLoop_stack_mem buffer width height threshold fuel _ _ _ hf' q
            (List.mem_append_right _ hq) hgood

/-- Once a good pixel has been visited during a run, each of its good
neighbors is visited by the end of that run. -/
theorem growLoop_closed (buffer : Buf) (width height : ℤ) (threshold : ℕ) :
    ∀ (fuel : ℕ) (stack : List (ℤ × ℤ)) (visited : Finset ℤ) (region : GrowRegion),
      stack.length + 9 * unvisitedBound width height visited ≤ fuel →
      ∀ p : ℤ × ℤ, goodPt buffer width height threshold p →
        idxOf width p ∉ visited →
        idxOf width p ∈ (growLoop buffer width height threshold fuel stack visited region).2 →
        ∀ n ∈ pushNeighbors p.1 p.2, goodPt buffer width height threshold n →
          idxOf width n ∈ (growLoop buffer width height threshold fuel stack visited region).2
  | 0, stack, visited, region => by
    intro _ p _ hnv hmem
    exact absurd hmem hnv
  | _ + 1, [], visited, region => by
    intro _ p _ hnv hmem
    exact absurd hmem hnv
  | fuel + 1, (x, y) :: rest, visited, region => by
    intro hf p hpgood hnv hmem n hn hngood
    rw [growLoop_cons] at hmem ⊢
    by_cases h1 : y * width + x ∈ visited ∨ x < 0 ∨ width ≤ x ∨ y < 0 ∨ height ≤ y
    · rw [if_pos h1] at hmem ⊢
      exact growLoop_closed buffer width height threshold fuel rest visited region
        (by simp only [List.length_cons] at hf; omega) p hpgood hnv hmem n hn hngood
    · rw [if_neg h1] at hmem ⊢
      push_neg at h1
      obtain ⟨hnvp, hx0, hxw, hy0, hyh⟩ := h1
      by_cases h2 : buffer.data (y * width + x).toNat < threshold
      · rw [if_pos h2] at hmem ⊢
        exact growLoop_closed buffer width height threshold fuel rest visited region
          (by simp only [List.length_cons] at hf; omega) p hpgood hnv hmem n hn hngood
      · rw [if_neg h2] at hmem ⊢
        have hicc := index_mem_Icc hx0 hxw hy0 hyh
        have hdec := unvisitedBound_insert hicc hnvp
        have hf' : ((pushNeighbors x y).reverse ++ rest).length +
            9 * unvisitedBound width height (insert (y * width + x) visited) ≤ fuel := by
          have hlen : ((pushNeighbors x y).reverse ++ rest).length = 8 + rest.length := by
            simp [pushNeighbors, neighborOffsets]
            omega
          rw [hlen]
          simp only [List.length_cons] at hf
          omega
        by_cases hpi : idxOf width p = y * width + x
        · have hpeq : p = (x, y) :=
            idxOf_inj hpgood.1 hpgood.2.1 hx0 hxw (p := p) (q := (x, y)) hpi
          subst hpeq
          exact growLoop_stack_mem buffer width height threshold fuel _ _ _ hf' n
            (List.mem_append_left _ (List.mem_reverse.mpr hn)) hngood
        · have hnv' : idxOf width p ∉ insert (y * width + x) visited := by
            simp only [Finset.mem_insert]
            push_neg
            exact ⟨hpi, hnv⟩
          exact growLoop_closed buffer width height threshold fuel _ _ _ hf' p hpgood hnv'
            hmem n hn hngood

/-- Soundness: every index newly visited during a run is the index of a good
pixel satisfying any neighbor-closed predicate that holds on the good stack
entries. -/
theorem growLoop_sound (buffer : Buf) (width height : ℤ) (threshold : ℕ)
    (R : ℤ × ℤ → Prop)
    (hR : ∀ p : ℤ × ℤ, R p → goodPt buffer width height threshold p →
      ∀ n ∈ pushNeighbors p.1 p.2, goodPt buffer width height threshold n → R n) :
    ∀ (fuel : ℕ) (stack : List (ℤ × ℤ)) (visited : Finset ℤ) (region : GrowRegion),
      (∀ q ∈ stack, goodPt buffer width height threshold q → R q) →
      ∀ i ∈ (growLoop buffer width height threshold fuel stack visited region).2,
        i ∉ visited →
        ∃ p : ℤ × ℤ, goodPt buffer width height threshold p ∧ R p ∧ idxOf width p = i
  | 0, stack, visited, region => by
    intro _ i hmem hni
    exact absurd hmem hni
  | _ + 1, [], visited, region => by
    intro _ i hmem hni
    exact absurd hmem hni
  | fuel + 1, (x, y) :: rest, visited, region => by
    intro hstack i hmem hni
    rw [growLoop_cons] at hmem
    by_cases h1 : y * width + x ∈ visited ∨ x < 0 ∨ width ≤ x ∨ y < 0 ∨ height ≤ y
    · rw [if_pos h1] at hmem
      exact growLoop_sound buffer width height threshold R hR fuel rest visited region
        (fun q hq hg => hstack q (List.mem_cons_of_mem _ hq) hg) i hmem hni
    · rw [if_neg h1] at hmem
      push_neg at h1
      obtain ⟨hnvp, hx0, hxw, hy0, hyh⟩ := h1
      by_cases h2 : buffer.data (y * width + x).toNat < threshold
      · rw [if_pos h2] at hmem
        exact growLoop_sound buffer width height threshold R hR fuel rest visited region
          (fun q hq hg => hstack q (List.mem_cons_of_mem _ hq) hg) i hmem hni
      · rw [if_neg h2] at hmem
        have hgxy : goodPt buffer width height threshold (x, y) :=
          ⟨hx0, hxw, hy0, hyh, Nat.le_of_not_lt h2⟩
        have hRxy : R (x, y) := hstack (x, y) (List.mem_cons_self _ _) hgxy
        by_cases hii : i = y * width + x
        · exact ⟨(x, y), hgxy, hRxy, hii.symm⟩
        · have hni' : i ∉ insert (y * width + x) visited := by
            simp only [Finset.mem_insert]
            push_neg
            exact ⟨hii, hni⟩
          refine growLoop_sound buffer width height threshold R hR fuel _ _ _ ?_ i hmem hni'
          intro q hq hqgood
          rcases List.mem_append.mp hq with hq | hq
          · exact hR (x, y) hRxy hgxy q (List.mem_reverse.mp hq) hqgood
          · exact hstack q (List.mem_cons_of_mem _ hq) hqgood

/-- The size counter counts exactly the newly visited indices. -/
theorem growLoop_size (buffer : Buf) (width height : ℤ) (threshold : ℕ) :
    ∀ (fuel : ℕ) (stack : List (ℤ × ℤ)) (visited : Finset ℤ) (region : GrowRegion),
      (growLoop buffer width height threshold fuel stack visited region).1.size +
        visited.card =
      region.size + (growLoop buffer width height threshold fuel stack visited region).2.card
  | 0, stack, visited, region => by simp [growLoop]
  | _ + 1, [], visited, region => by simp [growLoop]
  | fuel + 1, (x, y) :: rest, visited, region => by
    rw [growLoop_cons]
    by_cases h1 : y * width + x ∈ visited ∨ x < 0 ∨ width ≤ x ∨ y < 0 ∨ height ≤ y
    · rw [if_pos h1]
      exact growLoop_size buffer width height threshold fuel rest visited region
    · rw [if_neg h1]
      push_neg at h1
      by_cases h2 : buffer.data (y * width + x).toNat < threshold
      · rw [if_pos h2]
        exact growLoop_size buffer width height threshold fuel rest visited region
      · rw [if_neg h2]
        have hcard : (insert (y * width + x) visited).card = visited.card + 1 :=
          Finset.card_insert_of_not_mem h1.1
        have hrec := growLoop_size buffer width height threshold fuel
          ((pushNeighbors x y).reverse ++ rest) (insert (y * width + x) visited)
          { minX := min region.minX x, maxX := max region.maxX x,
            minY := min region.minY y, maxY := max region.maxY y,
            size := region.size + 1 }
        have hproj : ({ minX := min region.minX x, maxX := max region.maxX x,
                        minY := min region.minY y, maxY := max region.maxY y,
                        size := region.size + 1 } : GrowRegion).size = region.size + 1 := rfl
        omega

/-- Every pixel newly visited during a run lies inside the final bounding
box. -/
theorem growLoop_box_bounds (buffer : Buf) (width height : ℤ) (threshold : ℕ) :
    ∀ (fuel : ℕ) (stack : List (ℤ × ℤ)) (visited : Finset ℤ) (region : GrowRegion),
      ∀ p : ℤ × ℤ, goodPt buffer width height threshold p →
        idxOf width p ∉ visited →
        idxOf width p ∈ (growLoop buffer width height threshold fuel stack visited region).2 →
        (growLoop buffer width height threshold fuel stack visited region).1.minX ≤ p.1 ∧
        p.1 ≤ (growLoop buffer width height threshold fuel stack visited region).1.maxX ∧
        (growLoop buffer width height threshold fuel stack visited region).1.minY ≤ p.2 ∧
        p.2 ≤ (growLoop buffer width height threshold fuel stack visited region).1.maxY
  | 0, stack, visited, region => by
    intro p _ hnv hmem
    exact absurd hmem hnv
  | _ + 1, [], visited, region => by
    intro p _ hnv hmem
    exact absurd hmem hnv
  | fuel + 1, (x, y) :: rest, visited, region => by
    intro p hpgood hnv hmem
    rw [growLoop_cons] at hmem ⊢
    by_cases h1 : y * width + x ∈ visited ∨ x < 0 ∨ width ≤ x ∨ y < 0 ∨ height ≤ y
    · rw [if_pos h1] at hmem ⊢
      exact growLoop_box_bounds buffer width height threshold fuel rest visited region
        p hpgood hnv hmem
    · rw [if_neg h1] at hmem ⊢
      push_neg at h1
      obtain ⟨hnvp, hx0, hxw, hy0, hyh⟩ := h1
      by_cases h2 : buffer.data (y * width + x).toNat < threshold
      · rw [if_pos h2] at hmem ⊢
        exact growLoop_box_bounds buffer width height threshold fuel rest visited region
          p hpgood hnv hmem
      · rw [if_neg h2] at hmem ⊢
        by_cases hpi : idxOf width p = y * width + x
        · have hpeq : p = (x, y) :=
            idxOf_inj hpgood.1 hpgood.2.1 hx0 hxw (p := p) (q := (x, y)) hpi
          subst hpeq
          obtain ⟨a, b, c, d⟩ := growLoop_box_mono buffer width height threshold fuel
            ((pushNeighbors x y).reverse ++ rest) (insert (y * width + x) visited)
            { minX := min region.minX x, maxX := max region.maxX x,
              minY := min region.minY y, maxY := max region.maxY y,
              size := region.size + 1 }
          refine ⟨le_trans a ?_, le_trans ?_ b, le_trans c ?_, le_trans ?_ d⟩
          · exact min_le_right _ _
          · exact le_max_right _ _
          · exact min_le_right _ _
          · exact le_max_right _ _
        · have hnv' : idxOf width p ∉ insert (y * width + x) visited := by
            simp only [Finset.mem_insert]
            push_neg
            exact ⟨hpi, hnv⟩
          exact growLoop_box_bounds buffer width height threshold fuel _ _ _ p hpgood
            hnv' hmem

/-- If every good pixel lies in a rectangle and the running box starts
inside it, the final box stays inside it. -/
theorem growLoop_box_within (buffer : Buf) (width height : ℤ) (threshold : ℕ)
    (lo hi lo' hi' : ℤ)
    (hgood : ∀ p : ℤ × ℤ, goodPt buffer width height threshold p →
      lo ≤ p.1 ∧ p.1 ≤ hi ∧ lo' ≤ p.2 ∧ p.2 ≤ hi') :
    ∀ (fuel : ℕ) (stack : List (ℤ × ℤ)) (visited : Finset ℤ) (region : GrowRegion),
      lo ≤ region.minX → region.maxX ≤ hi → lo' ≤ region.minY → region.maxY ≤ hi' →
      lo ≤ (growLoop buffer width height threshold fuel stack visited region).1.minX ∧
      (growLoop buffer width height threshold fuel stack visited region).1.maxX ≤ hi ∧
      lo' ≤ (growLoop buffer width height threshold fuel stack visited region).1.minY ∧
      (growLoop buffer width height threshold fuel stack visited region).1.maxY ≤ hi'
  | 0, _, _, region => fun a b c d => ⟨a, b, c, d⟩
  | _ + 1, [], _, region => fun a b c d => ⟨a, b, c, d⟩
  | fuel + 1, (x, y) :: rest, visited, region => by
    intro ha hb hc hd
    rw [growLoop_cons]
    by_cases h1 : y * width + x ∈ visited ∨ x < 0 ∨ width ≤ x ∨ y < 0 ∨ height ≤ y
    · rw [if_pos h1]
      exact growLoop_box_within buffer width height threshold lo hi lo' hi' hgood fuel
        rest visited region ha hb hc hd
    · rw [if_neg h1]
      push_neg at h1
      obtain ⟨hnvp, hx0, hxw, hy0, hyh⟩ := h1
      by_cases h2 : buffer.data (y * width + x).toNat < threshold
      · rw [if_pos h2]
        exact growLoop_box_within buffer width height threshold lo hi lo' hi' hgood fuel
          rest visited region ha hb hc hd
      · rw [if_neg h2]
        have hgxy : goodPt buffer width height threshold (x, y) :=
          ⟨hx0, hxw, hy0, hyh, Nat.le_of_not_lt h2⟩
        obtain ⟨e1, e2, e3, e4⟩ := hgood (x, y) hgxy
        exact growLoop_box_within buffer width height threshold lo hi lo' hi' hgood fuel
          _ _ _ (le_min ha e1) (max_le hb e2) (le_min hc e3) (max_le hd e4)

/-- Reachability implies the predicate. -/
theorem reach_good {good : ℤ × ℤ → Prop} {seed p : ℤ × ℤ}
    (h : Reach good seed p) : good p := by
  induction h with
  | refl h => exact h
  | step _ _ hg => exact hg

/-- Reachability is transitive. -/
theorem reach_trans {good : ℤ × ℤ → Prop} {a b c : ℤ × ℤ}
    (h1 : Reach good a b) (h2 : Reach good b c) : Reach good a c := by
  induction h2 with
  | refl _ => exact h1
  | step _ hmem hg ih => exact ih.step hmem hg

/-- Reachability transports along pointwise-equivalent predicates. -/
theorem reach_congr {g1 g2 : ℤ × ℤ → Prop} (h : ∀ p, g1 p ↔ g2 p) {seed p : ℤ × ℤ}
    (hr : Reach g1 seed p) : Reach g2 seed p := by
  induction hr with
  | refl hg => exact Reach.refl ((h _).mp hg)
  | step _ hmem hg ih => exact ih.step hmem ((h _).mp hg)

theorem right_mem_pushNeighbors (x y : ℤ) : (x + 1, y) ∈ pushNeighbors x y := by
  simp [pushNeighbors, neighborOffsets]

theorem left_mem_pushNeighbors (x y : ℤ) : (x - 1, y) ∈ pushNeighbors x y := by
  simp [pushNeighbors, neighborOffsets]
  omega

theorem down_mem_pushNeighbors (x y : ℤ) : (x, y + 1) ∈ pushNeighbors x y := by
  simp [pushNeighbors, neighborOffsets]

theorem up_mem_pushNeighbors (x y : ℤ) : (x, y - 1) ∈ pushNeighbors x y := by
  simp [pushNeighbors, neighborOffsets]
  omega

/-- One reachability step between good neighbors. -/
theorem reach_single {good : ℤ × ℤ → Prop} {p q : ℤ × ℤ} (hp : good p) (hq : good q)
    (hmem : q ∈ pushNeighbors p.1 p.2) : Reach good p q :=
  (Reach.refl hp).step hmem hq

/-- Walking right along a row of the square. -/
theorem reach_inSquare_right (x0 y0 s a y : ℤ) :
    ∀ k : ℕ, inSquare x0 y0 s (a, y) → inSquare x0 y0 s (a + k, y) →
      Reach (inSquare x0 y0 s) (a, y) (a + k, y)
  | 0, h1, _ => by
    have h : a + ((0 : ℕ) : ℤ) = a := by push_cast; ring
    rw [h]
    exact Reach.refl h1
  | k + 1, h1, h2 => by
    have heq : a + ((k + 1 : ℕ) : ℤ) = (a + (k : ℤ)) + 1 := by push_cast; ring
    rw [heq] at h2 ⊢
    have hmid : inSquare x0 y0 s (a + (k : ℤ), y) := by
      obtain ⟨a1, a2, a3, a4⟩ := h1
      obtain ⟨b1, b2, b3, b4⟩ := h2
      exact ⟨by simp at a1 ⊢; omega, by simp at b2 ⊢; omega, a3, a4⟩
    exact (reach_inSquare_right x0 y0 s a y k h1 hmid).step
      (right_mem_pushNeighbors _ _) h2

/-- Walking left along a row of the square. -/
theorem reach_inSquare_left (x0 y0 s b y : ℤ) :
    ∀ k : ℕ, inSquare x0 y0 s (b + k, y) → inSquare x0 y0 s (b, y) →
      Reach (inSquare x0 y0 s) (b + k, y) (b, y)
  | 0, h1, _ => by
    have h : b + ((0 : ℕ) : ℤ) = b := by push_cast; ring
    rw [h] at h1 ⊢
    exact Reach.refl h1
  | k + 1, h1, h2 => by
    have heq : b + ((k + 1 : ℕ) : ℤ) = (b + (k : ℤ)) + 1 := by push_cast; ring
    rw [heq] at h1 ⊢
    have hmid : inSquare x0 y0 s (b + (k : ℤ), y) := by
      obtain ⟨a1, a2, a3, a4⟩ := h1
      obtain ⟨b1, b2, b3, b4⟩ := h2
      exact ⟨by simp at b1 ⊢; omega, by simp at a2 ⊢; omega, a3, a4⟩
    have hstep : Reach (inSquare x0 y0 s) (b + (k : ℤ) + 1, y) (b + (k : ℤ), y) := by
      have := left_mem_pushNeighbors (b + (k : ℤ) + 1) y
      have he : b + (k : ℤ) + 1 - 1 = b + (k : ℤ) := by ring
      rw [he] at this
      exact reach_single h1 hmid this
    exact reach_trans hstep (reach_inSquare_left x0 y0 s b y k hmid h2)

/-- Walking down along a column of the square. -/
theorem reach_inSquare_down (x0 y0 s x a : ℤ) :
    ∀ k : ℕ, inSquare x0 y0 s (x, a) → inSquare x0 y0 s (x, a + k) →
      Reach (inSquare x0 y0 s) (x, a) (x, a + k)
  | 0, h1, _ => by
    have h : a + ((0 : ℕ) : ℤ) = a := by push_cast; ring
    rw [h]
    exact Reach.refl h1
  | k + 1, h1, h2 => by
    have heq : a + ((k + 1 : ℕ) : ℤ) = (a + (k : ℤ)) + 1 := by push_cast; ring
    rw [heq] at h2 ⊢
    have hmid : inSquare x0 y0 s (x, a + (k : ℤ)) := by
      obtain ⟨a1, a2, a3, a4⟩ := h1
      obtain ⟨b1, b2, b3, b4⟩ := h2
      exact ⟨a1, a2, by simp at a3 ⊢; omega, by simp at b4 ⊢; omega⟩
    exact (reach_inSquare_down x0 y0 s x a k h1 hmid).step
      (down_mem_pushNeighbors _ _) h2

/-- Walking up along a column of the square. -/
theorem reach_inSquare_up (x0 y0 s x b : ℤ) :
    ∀ k : ℕ, inSquare x0 y0 s (x, b + k) → inSquare x0 y0 s (x, b) →
      Reach (inSquare x0 y0 s) (x, b + k) (x, b)
  | 0, h1, _ => by
    have h : b + ((0 : ℕ) : ℤ) = b := by push_cast; ring
    rw [h] at h1 ⊢
    exact Reach.refl h1
  | k + 1, h1, h2 => by
    have heq : b + ((k + 1 : ℕ) : ℤ) = (b + (k : ℤ)) + 1 := by push_cast; ring
    rw [heq] at h1 ⊢
    have hmid : inSquare x0 y0 s (x, b + (k : ℤ)) := by
      obtain ⟨a1, a2, a3, a4⟩ := h1
      obtain ⟨b1, b2, b3, b4⟩ := h2
      exact ⟨a1, a2, by simp at b3 ⊢; omega, by simp at a4 ⊢; omega⟩
    have hstep : Reach (inSquare x0 y0 s) (x, b + (k : ℤ) + 1) (x, b + (k : ℤ)) := by
      have := up_mem_pushNeighbors x (b + (k : ℤ) + 1)
      have he : b + (k : ℤ) + 1 - 1 = b + (k : ℤ) := by ring
      rw [he] at this
      exact reach_single h1 hmid this
    exact reach_trans hstep (reach_inSquare_up x0 y0 s x b k hmid h2)

/-- Any two pixels of the square are mutually reachable through the square
(horizontal walk, then vertical walk; 8-connectivity includes both). -/
theorem reach_inSquare (x0 y0 s : ℤ) (p q : ℤ × ℤ)
    (hp : inSquare x0 y0 s p) (hq : inSquare x0 y0 s q) :
    Reach (inSquare x0 y0 s) p q := by
  obtain ⟨px, py⟩ := p
  obtain ⟨qx, qy⟩ := q
  have hmid : inSquare x0 y0 s (qx, py) := ⟨hq.1, hq.2.1, hp.2.2.1, hp.2.2.2⟩
  have hrow : Reach (inSquare x0 y0 s) (px, py) (qx, py) := by
    rcases le_total px qx with h | h
    · obtain ⟨k, hk⟩ : ∃ k : ℕ, qx = px + k := ⟨(qx - px).toNat, by omega⟩
      rw [hk] at hmid ⊢
      exact reach_inSquare_right x0 y0 s px py k hp hmid
    · obtain ⟨k, hk⟩ : ∃ k : ℕ, px = qx + k := ⟨(px - qx).toNat, by omega⟩
      rw [hk] at hp ⊢
      exact reach_inSquare_left x0 y0 s qx py k hp hmid
  have hcol : Reach (inSquare x0 y0 s) (qx, py) (qx, qy) := by
    rcases le_total py qy with h | h
    · obtain ⟨k, hk⟩ : ∃ k : ℕ, qy = py + k := ⟨(qy - py).toNat, by omega⟩
      rw [hk] at hq ⊢
      exact reach_inSquare_down x0 y0 s qx py k hmid hq
    · obtain ⟨k, hk⟩ : ∃ k : ℕ, py = qy + k := ⟨(py - qy).toNat, by omega⟩
      rw [hk] at hmid ⊢
      exact reach_inSquare_up x0 y0 s qx qy k hmid hq
  exact reach_trans hrow hcol

/-- Row-major index arithmetic for an in-bounds column. -/
theorem idx_emod_ediv (width x y : ℤ) (hx : 0 ≤ x) (hx' : x < width) :
    (y * width + x) % width = x ∧ (y * width + x) / width = y := by
  have hw : width ≠ 0 := by omega
  have heq : y * width + x = x + width * y := by ring
  constructor
  · rw [heq, Int.add_mul_emod_self_left, Int.emod_eq_of_lt hx hx']
  · rw [heq, Int.add_mul_ediv_left x y hw, Int.ediv_eq_zero_of_lt hx hx', zero_add]

/-- On the solid-square buffer, the good pixels at threshold 100 are exactly
the square's pixels. -/
theorem goodPt_squareBuf (width height x0 y0 s : ℤ)
    (hx0 : 0 ≤ x0) (hy0 : 0 ≤ y0) (hxs : x0 + s ≤ width) (hys : y0 + s ≤ height) :
    ∀ p : ℤ × ℤ,
      goodPt (squareBuf width height x0 y0 s) width height 100 p ↔ inSquare x0 y0 s p := by
  rintro ⟨px, py⟩
  constructor
  · rintro ⟨h1, h2, h3, h4, h5⟩
    simp only at h1 h2 h3 h4
    have hi0 : (0 : ℤ) ≤ py * width + px := by
      have := mul_nonneg h3 (by omega : (0 : ℤ) ≤ width)
      omega
    have hcast : (((py * width + px).toNat : ℤ)) = py * width + px :=
      Int.toNat_of_nonneg hi0
    obtain ⟨hm, hd⟩ := idx_emod_ediv width px py h1 h2
    by_cases hc : x0 ≤ (((py * width + px).toNat : ℤ)) % width ∧
        (((py * width + px).toNat : ℤ)) % width < x0 + s ∧
        y0 ≤ (((py * width + px).toNat : ℤ)) / width ∧
        (((py * width + px).toNat : ℤ)) / width < y0 + s
    · rw [hcast, hm, hd] at hc
      exact ⟨hc.1, hc.2.1, hc.2.2.1, hc.2.2.2⟩
    · exfalso
      have : (squareBuf width height x0 y0 s).data ((py * width + px).toNat) = 0 := by
        simp only [squareBuf]
        rw [if_neg hc]
      simp only [goodPt] at h5
      omega
  · rintro ⟨s1, s2, s3, s4⟩
    simp only at s1 s2 s3 s4
    have hxb : 0 ≤ px ∧ px < width := by omega
    have hyb : 0 ≤ py ∧ py < height := by omega
    have hi0 : (0 : ℤ) ≤ py * width + px := by
      have := mul_nonneg hyb.1 (by omega : (0 : ℤ) ≤ width)
      omega
    have hcast : (((py * width + px).toNat : ℤ)) = py * width + px :=
      Int.toNat_of_nonneg hi0
    obtain ⟨hm, hd⟩ := idx_emod_ediv width px py hxb.1 hxb.2
    refine ⟨hxb.1, hxb.2, hyb.1, hyb.2, ?_⟩
    have : (squareBuf width height x0 y0 s).data ((py * width + px).toNat) = 200 := by
      simp only [squareBuf]
      rw [if_pos (by rw [hcast, hm, hd]; exact ⟨s1, s2, s3, s4⟩)]
    simp only
    omega

/-- Unfolding of `growRegion` to its loop. -/
theorem growRegion_def_eq (buffer : Buf) (width height startX startY : ℤ)
    (visited : Finset ℤ) (threshold : ℕ) :
    growRegion buffer width height startX startY visited threshold =
      growLoop buffer width height threshold
        (1 + 9 * unvisitedBound width height visited) [(startX, startY)] visited
        { minX := startX, maxX := startX, minY := startY, maxY := startY,
          size := 0 } := rfl

/-- Claim C7: On a buffer that is a solid axis-aligned square of intensity 200
on a 0 background, `growRegion` seeded anywhere inside the square with
admission threshold 100 and an initially empty visited set returns exactly
the square's bounding box (`minX = x0`, `maxX = x0+s−1`, `minY = y0`,
`maxY = y0+s−1`) with `size` equal to the square's pixel count `s²`. -/
theorem growRegion_solid_square (width height x0 y0 seedX seedY : ℤ) (s : ℕ)
    (hx0 : 0 ≤ x0) (hy0 : 0 ≤ y0) (hxs : x0 + (s : ℤ) ≤ width)
    (hys : y0 + (s : ℤ) ≤ height)
    (hseed : inSquare x0 y0 (s : ℤ) (seedX, seedY)) :
    (growRegion (squareBuf width height x0 y0 (s : ℤ)) width height seedX seedY ∅ 100).1 =
      { minX := x0, maxX := x0 + (s : ℤ) - 1, minY := y0, maxY := y0 + (s : ℤ) - 1,
        size := s * s } := by
  have hiff := goodPt_squareBuf width height x0 y0 (s : ℤ) hx0 hy0 hxs hys
  have hb1 : x0 ≤ seedX := hseed.1
  have hb2 : seedX < x0 + (s : ℤ) := hseed.2.1
  have hb3 : y0 ≤ seedY := hseed.2.2.1
  have hb4 : seedY < y0 + (s : ℤ) := hseed.2.2.2
  rw [growRegion_def_eq]
  set B := squareBuf width height x0 y0 (s : ℤ) with hB
  set F := 1 + 9 * unvisitedBound width height (∅ : Finset ℤ) with hF
  set r0 : GrowRegion :=
    { minX := seedX, maxX := seedX, minY := seedY, maxY := seedY, size := 0 } with hr0
  set out := growLoop B width height 100 F [(seedX, seedY)] ∅ r0 with hout
  have hf : ([((seedX : ℤ), (seedY : ℤ))] : List (ℤ × ℤ)).length +
      9 * unvisitedBound width height (∅ : Finset ℤ) ≤ F := by
    rw [hF]
    simp
  have hseedgood : goodPt B width height 100 (seedX, seedY) := (hiff _).mpr hseed
  have hcomp : ∀ p : ℤ × ℤ, Reach (inSquare x0 y0 (s : ℤ)) (seedX, seedY) p →
      idxOf width p ∈ out.2 := by
    intro p hr
    rw [hout]
    induction hr with
    | refl _ =>
      exact growLoop_stack_mem B width height 100 F [(seedX, seedY)] ∅ r0 hf
        (seedX, seedY) (List.mem_singleton_self _) hseedgood
    | step hr hmem hg ih =>
      exact growLoop_closed B width height 100 F [(seedX, seedY)] ∅ r0 hf _
        ((hiff _).mpr (reach_good hr)) (Finset.not_mem_empty _) ih _ hmem
        ((hiff _).mpr hg)
  have hsq : ∀ p : ℤ × ℤ, inSquare x0 y0 (s : ℤ) p → idxOf width p ∈ out.2 := fun p hp =>
    hcomp p (reach_inSquare x0 y0 (s : ℤ) (seedX, seedY) p hseed hp)
  have hsound : ∀ i ∈ out.2, ∃ p : ℤ × ℤ, inSquare x0 y0 (s : ℤ) p ∧ idxOf width p = i := by
    intro i hi
    rw [hout] at hi
    obtain ⟨p, hg, _, he⟩ := growLoop_sound B width height 100
      (Reach (goodPt B width height 100) (seedX, seedY))
      (fun p hp hpg n hn hng => hp.step hn hng)
      F [(seedX, seedY)] ∅ r0
      (fun q hq hqg => by
        rw [List.mem_singleton] at hq
        subst hq
        exact Reach.refl hqg) i hi (Finset.not_mem_empty i)
    exact ⟨p, (hiff p).mp hg, he⟩
  have hVeq : out.2 =
      (Finset.Icc x0 (x0 + (s : ℤ) - 1) ×ˢ Finset.Icc y0 (y0 + (s : ℤ) - 1)).image
        (idxOf width) := by
    ext i
    simp only [Finset.mem_image, Finset.mem_product, Finset.mem_Icc]
    constructor
    · intro hi
      obtain ⟨p, hp, he⟩ := hsound i hi
      obtain ⟨p1, p2, p3, p4⟩ := hp
      exact ⟨p, ⟨⟨p1, by omega⟩, ⟨p3, by omega⟩⟩, he⟩
    · rintro ⟨p, ⟨⟨h1, h2⟩, h3, h4⟩, he⟩
      rw [← he]
      exact hsq p ⟨h1, by omega, h3, by omega⟩
  have hinj : Set.InjOn (idxOf width)
      ↑(Finset.Icc x0 (x0 + (s : ℤ) - 1) ×ˢ Finset.Icc y0 (y0 + (s : ℤ) - 1)) := by
    intro p hp q hq h
    simp only [Finset.coe_product, Set.mem_prod, Finset.coe_Icc, Set.mem_Icc] at hp hq
    obtain ⟨⟨a1, a2⟩, _⟩ := hp
    obtain ⟨⟨b1, b2⟩, _⟩ := hq
    exact idxOf_inj (by omega) (by omega) (by omega) (by omega) h
  have hcard : out.2.card = s * s := by
    rw [hVeq, Finset.card_image_of_injOn hinj, Finset.card_product, Int.card_Icc,
      Int.card_Icc]
    have e1 : x0 + (s : ℤ) - 1 + 1 - x0 = (s : ℤ) := by ring
    have e2 : y0 + (s : ℤ) - 1 + 1 - y0 = (s : ℤ) := by ring
    rw [e1, e2]
    simp
  have hsizes : out.1.size = s * s := by
    have h := growLoop_size B width height 100 F [(seedX, seedY)] ∅ r0
    rw [← hout] at h
    have hr0s : r0.size = 0 := rfl
    simp only [Finset.card_empty] at h
    omega
  have hcor1 : inSquare x0 y0 (s : ℤ) (x0, y0) :=
    ⟨le_refl x0, show x0 < x0 + (s : ℤ) by omega, le_refl y0,
     show y0 < y0 + (s : ℤ) by omega⟩
  have hcor2 : inSquare x0 y0 (s : ℤ) (x0 + (s : ℤ) - 1, y0 + (s : ℤ) - 1) :=
    ⟨show x0 ≤ x0 + (s : ℤ) - 1 by omega, show x0 + (s : ℤ) - 1 < x0 + (s : ℤ) by omega,
     show y0 ≤ y0 + (s : ℤ) - 1 by omega, show y0 + (s : ℤ) - 1 < y0 + (s : ℤ) by omega⟩
  have hbb1 := growLoop_box_bounds B width height 100 F [(seedX, seedY)] ∅ r0 (x0, y0)
    ((hiff _).mpr hcor1) (Finset.not_mem_empty _) (hsq _ hcor1)
  have hbb2 := growLoop_box_bounds B width height 100 F [(seedX, seedY)] ∅ r0
    (x0 + (s : ℤ) - 1, y0 + (s : ℤ) - 1)
    ((hiff _).mpr hcor2) (Finset.not_mem_empty _) (hsq _ hcor2)
  rw [← hout] at hbb1 hbb2
  have hminXle : out.1.minX ≤ x0 := hbb1.1
  have hminYle : out.1.minY ≤ y0 := hbb1.2.2.1
  have hmaxXge : x0 + (s : ℤ) - 1 ≤ out.1.maxX := hbb2.2.1
  have hmaxYge : y0 + (s : ℤ) - 1 ≤ out.1.maxY := hbb2.2.2.2
  have hwithin := growLoop_box_within B width height 100 x0 (x0 + (s : ℤ) - 1) y0
    (y0 + (s : ℤ) - 1)
    (fun p hp => by
      obtain ⟨a1, a2, a3, a4⟩ := (hiff p).mp hp
      exact ⟨a1, by omega, a3, by omega⟩)
    F [(seedX, seedY)] ∅ r0
    (show x0 ≤ seedX from hb1) (show seedX ≤ x0 + (s : ℤ) - 1 by omega)
    (show y0 ≤ seedY from hb3) (show seedY ≤ y0 + (s : ℤ) - 1 by omega)
  rw [← hout] at hwithin
  have h1 : out.1.minX = x0 := le_antisymm hminXle hwithin.1
  have h2 : out.1.maxX = x0 + (s : ℤ) - 1 := le_antisymm hwithin.2.1 hmaxXge
  have h3 : out.1.minY = y0 := le_antisymm hminYle hwithin.2.2.1
  have h4 : out.1.maxY = y0 + (s : ℤ) - 1 := le_antisymm hwithin.2.2.2 hmaxYge
  have hfin : out.1 = ⟨out.1.minX, out.1.maxX, out.1.minY, out.1.maxY, out.1.size⟩ := rfl
  rw [hfin, h1, h2, h3, h4, hsizes]

/-- Witness for C7: a 6×6 buffer with a 3×3 square at (1,1), seeded at its
center (2,2), grows to exactly the square's bounding box with size 9. -/
theorem growRegion_solid_square_witness :
    inSquare 1 1 ((3 : ℕ) : ℤ) (2, 2) ∧
    (growRegion (squareBuf 6 6 1 1 ((3 : ℕ) : ℤ)) 6 6 2 2 ∅ 100).1 =
      { minX := 1, maxX := 1 + ((3 : ℕ) : ℤ) - 1, minY := 1, maxY := 1 + ((3 : ℕ) : ℤ) - 1,
        size := 3 * 3 } := by
  have hseed : inSquare 1 1 ((3 : ℕ) : ℤ) (2, 2) := by
    simp only [inSquare]
    norm_num
  exact ⟨hseed, growRegion_solid_square 6 6 1 1 2 2 3 (by norm_num) (by norm_num)
    (by norm_num) (by norm_num) hseed⟩

/-- Fold invariant behind C2: every region the seeding loop accumulates has
non-negative box dimensions, positive pixel count, and (when the box is
non-degenerate) positive density. -/
theorem seedRegions_fold_inv (buffer : Buf) (width height : ℤ)
    (edgeThreshold regionThreshold : ℕ) (m : ℤ) :
    ∀ (pts : List (ℤ × ℤ)) (st : List Region0 × Finset ℤ),
      (∀ r ∈ st.1, 0 ≤ r.width ∧ 0 ≤ r.height ∧ 0 < r.size ∧
        (0 < r.width → 0 < r.height → 0 < r.density)) →
      ∀ r ∈ (pts.foldl (seedStep buffer width height edgeThreshold regionThreshold m) st).1,
        0 ≤ r.width ∧ 0 ≤ r.height ∧ 0 < r.size ∧
        (0 < r.width → 0 < r.height → 0 < r.density)
  | [], st => fun h => by simpa using h
  | p :: rest, st => fun h => by
    rw [List.foldl_cons]
    apply seedRegions_fold_inv buffer width height edgeThreshold regionThreshold m rest
    intro r hr
    simp only [seedStep] at hr
    split at hr
    · exact h r hr
    · split at hr
      · simp only [List.mem_append, List.mem_singleton] at hr
        rcases hr with hr | hr
        · exact h r hr
        · subst hr
          rename_i hskip hsz
          have hbox := growLoop_box_mono buffer width height regionThreshold
            (1 + 9 * unvisitedBound width height st.2) [(p.1, p.2)] st.2
            { minX := p.1, maxX := p.1, minY := p.2, maxY := p.2, size := 0 }
          rw [← growRegion_def_eq] at hbox
          have hminX : (growRegion buffer width height p.1 p.2 st.2 regionThreshold).1.minX ≤
              p.1 := hbox.1
          have hmaxX : p.1 ≤
              (growRegion buffer width height p.1 p.2 st.2 regionThreshold).1.maxX :=
            hbox.2.1
          have hminY : (growRegion buffer width height p.1 p.2 st.2 regionThreshold).1.minY ≤
              p.2 := hbox.2.2.1
          have hmaxY : p.2 ≤
              (growRegion buffer width height p.1 p.2 st.2 regionThreshold).1.maxY :=
            hbox.2.2.2
          have hszpos :
              0 < (growRegion buffer width height p.1 p.2 st.2 regionThreshold).1.size := by
            have hnn : (0 : ℚ) ≤ (m : ℚ) * (m : ℚ) * (8 / 100) :=
              mul_nonneg (mul_self_nonneg _) (by norm_num)
            have : (0 : ℚ) <
                ((growRegion buffer width height p.1 p.2 st.2 regionThreshold).1.size : ℚ) :=
              lt_of_le_of_lt hnn hsz
            exact_mod_cast this
          refine ⟨by simp only; omega, by simp only; omega, by simp only; omega, ?_⟩
          intro hw hh
          simp only at hw hh ⊢
          apply div_pos
          · exact_mod_cast hszpos
          · exact_mod_cast mul_pos hw hh
      · exact h r hr

/-- Claim C2 (amended): Every candidate region produced during candidate
seeding has width ≥ 0 and height ≥ 0 and a positive pixel count, and its
density is positive whenever width and height are positive.  (As stated the
claim is false: the box is `maxX − minX` by `maxY − minY`, so the density
`size / (width·height)` can exceed 1, and width can be 0 — see the
counterexample.) -/
theorem seedRegions_region_invariants (buffer : Buf) (width height : ℤ)
    (edgeThreshold regionThreshold : ℕ) :
    ∀ r ∈ seedRegions buffer width height edgeThreshold regionThreshold,
      0 ≤ r.width ∧ 0 ≤ r.height ∧ 0 < r.size ∧
        (0 < r.width → 0 < r.height → 0 < r.density) := by
  intro r hr
  unfold seedRegions at hr
  exact seedRegions_fold_inv buffer width height edgeThreshold regionThreshold
    (minRegionSizeOf width) (seedPoints width height (minRegionSizeOf width)) ([], ∅)
    (by simp) r hr

set_option maxRecDepth 20000 in
/-- Counterexample to C2 as stated: on `c2buf`, candidate seeding (thresholds
40/25) produces a region with `width = maxX − minX = 1`, `height = 1` and
`size = 4`, whose density `4 / (1·1) = 4` is not ≤ 1. -/
theorem seedRegions_density_counterexample :
    ¬ ∀ r ∈ seedRegions c2buf 10 10 40 25,
        0 < r.width ∧ 0 < r.height ∧ 0 ≤ r.density ∧ r.density ≤ 1 := by
  decide

set_option maxRecDepth 20000 in
/-- Witness for the amended C2 at the concrete region produced on `c2buf`. -/
theorem seedRegions_region_invariants_witness :
    (⟨1, 1, 1, 1, 4, 3 / 2, 3 / 2, 4⟩ : Region0) ∈ seedRegions c2buf 10 10 40 25 ∧
    (0 ≤ (⟨1, 1, 1, 1, 4, 3 / 2, 3 / 2, 4⟩ : Region0).width ∧
      0 ≤ (⟨1, 1, 1, 1, 4, 3 / 2, 3 / 2, 4⟩ : Region0).height ∧
      0 < (⟨1, 1, 1, 1, 4, 3 / 2, 3 / 2, 4⟩ : Region0).size ∧
      (0 < (⟨1, 1, 1, 1, 4, 3 / 2, 3 / 2, 4⟩ : Region0).width →
        0 < (⟨1, 1, 1, 1, 4, 3 / 2, 3 / 2, 4⟩ : Region0).height →
        0 < (⟨1, 1, 1, 1, 4, 3 / 2, 3 / 2, 4⟩ : Region0).density)) :=
  ⟨by decide, seedRegions_region_invariants c2buf 10 10 40 25 _ (by decide)⟩

/-- Two-element `mergeSort` keeps the order when the comparator accepts it. -/
theorem mergeSort_pair_of_le {α : Type} (le : α → α → Bool) (a b : α) (h : le a b = true) :
    [a, b].mergeSort le = [a, b] := by
  simp [List.mergeSort, h]

/-- Two-element `mergeSort` swaps when the comparator rejects the order. -/
theorem mergeSort_pair_of_not_le {α : Type} (le : α → α → Bool) (a b : α)
    (h : le a b = false) : [a, b].mergeSort le = [b, a] := by
  simp [List.mergeSort, h]

/-- Rectangle intersection area is symmetric. -/
theorem calculateOverlapArea_comm (r1 r2 : SRegion) :
    calculateOverlapArea r1 r2 = calculateOverlapArea r2 r1 := by
  unfold calculateOverlapArea
  rw [max_comm r1.x, min_comm (r1.x + r1.width), max_comm r1.y, min_comm (r1.y + r1.height)]

theorem acceptRegions_nil (acc : List SRegion) : acceptRegions acc [] = acc := rfl

theorem acceptRegions_cons (acc : List SRegion) (region : SRegion) (rest : List SRegion) :
    acceptRegions acc (region :: rest) =
      if overlapsExisting region acc then acceptRegions acc rest
      else acceptRegions (acc ++ [region]) rest := rfl

theorem overlapsExisting_nil (region : SRegion) : overlapsExisting region [] = false := rfl

/-- The single check made against a one-element accepted list. -/
theorem overlapsExisting_single (region existing : SRegion) :
    overlapsExisting region [existing] =
      decide ((3 : ℚ) / 10 < (calculateOverlapArea region existing : ℚ) /
        ((min (region.width * region.height) (existing.width * existing.height) : ℤ) : ℚ)) := by
  simp only [overlapsExisting, List.any_cons, List.any_nil, Bool.or_false]

/-- Claim C3 (amended): For two scored regions with differing face scores (`a`
higher), `removeOverlappingRegions` drops the lower-scoring one and keeps
the higher-scoring one exactly when the rectangle-intersection area is
*strictly more than* 30 % of the smaller region's area; whenever it is at
most 30 % — including exactly 30 % — both regions are kept, in either
input order.  (As stated the claim is false at exactly 30 %: the source
tests `overlapArea / minArea > 0.3` strictly, so a pair overlapping by
exactly 30 % is kept — see the counterexample.) -/
theorem removeOverlappingRegions_pair (a b : SRegion)
    (hscore : b.faceScore < a.faceScore) :
    ((3 : ℚ) / 10 < (calculateOverlapArea a b : ℚ) /
        ((min (a.width * a.height) (b.width * b.height) : ℤ) : ℚ) →
      removeOverlappingRegions [a, b] = [a] ∧ removeOverlappingRegions [b, a] = [a]) ∧
    ((calculateOverlapArea a b : ℚ) /
        ((min (a.width * a.height) (b.width * b.height) : ℤ) : ℚ) ≤ 3 / 10 →
      removeOverlappingRegions [a, b] = [a, b] ∧
        removeOverlappingRegions [b, a] = [a, b]) := by
  have hsortab : [a, b].mergeSort scoreLe = [a, b] :=
    mergeSort_pair_of_le scoreLe a b (by simp [scoreLe]; exact le_of_lt hscore)
  have hsortba : [b, a].mergeSort scoreLe = [a, b] :=
    mergeSort_pair_of_not_le scoreLe b a (by simp [scoreLe]; exact hscore)
  have hrab : removeOverlappingRegions [a, b] = acceptRegions [] [a, b] := by
    unfold removeOverlappingRegions
    rw [if_neg (by simp), hsortab]
  have hrba : removeOverlappingRegions [b, a] = acceptRegions [] [a, b] := by
    unfold removeOverlappingRegions
    rw [if_neg (by simp), hsortba]
  have hov : overlapsExisting b [a] =
      decide ((3 : ℚ) / 10 < (calculateOverlapArea a b : ℚ) /
        ((min (a.width * a.height) (b.width * b.height) : ℤ) : ℚ)) := by
    rw [overlapsExisting_single, calculateOverlapArea_comm b a,
      min_comm (b.width * b.height)]
  have hacc : acceptRegions [] [a, b] =
      if overlapsExisting b [a] then [a] else [a, b] := by
    rw [acceptRegions_cons, overlapsExisting_nil]
    simp only [Bool.false_eq_true, if_false, List.nil_append]
    rw [acceptRegions_cons]
    split
    · rfl
    · rfl
  constructor
  · intro hgt
    have ht : overlapsExisting b [a] = true := by
      rw [hov]
      exact decide_eq_true hgt
    rw [hrab, hrba, hacc, ht]
    exact ⟨by simp, by simp⟩
  · intro hle
    have ht : overlapsExisting b [a] = false := by
      rw [hov]
      exact decide_eq_false (not_lt.mpr hle)
    rw [hrab, hrba, hacc, ht]
    exact ⟨by simp, by simp⟩

/-- Counterexample to C3 as stated: `c3a` and `c3b` overlap by exactly 30 %
of the smaller region's area (`overlap = 30`, `minArea = 100`) and their
face scores differ, yet both regions are kept, because the source drops a
region only when the ratio strictly exceeds 0.3. -/
theorem removeOverlappingRegions_boundary_counterexample :
    (calculateOverlapArea c3a c3b : ℚ) /
        ((min (c3a.width * c3a.height) (c3b.width * c3b.height) : ℤ) : ℚ) = 3 / 10 ∧
    c3b.faceScore ≠ c3a.faceScore ∧
    removeOverlappingRegions [c3a, c3b] = [c3a, c3b] := by
  refine ⟨by decide, by decide, ?_⟩
  have hsort : [c3a, c3b].mergeSort scoreLe = [c3a, c3b] :=
    mergeSort_pair_of_le scoreLe c3a c3b (by decide)
  unfold removeOverlappingRegions
  rw [if_neg (by decide), hsort]
  decide

/-- Witness for the amended C3: `c3a`/`c3c` overlap by 80 % > 30 % and the
lower-scoring `c3c` is dropped in either input order. -/
theorem removeOverlappingRegions_pair_witness :
    c3c.faceScore < c3a.faceScore ∧
    removeOverlappingRegions [c3a, c3c] = [c3a] ∧
    removeOverlappingRegions [c3c, c3a] = [c3a] :=
  ⟨by decide, (removeOverlappingRegions_pair c3a c3c (by decide)).1 (by decide)⟩

/-- Everything `acceptRegions` returns comes from the accumulator or the
input. -/
theorem acceptRegions_subset :
    ∀ (rest acc : List SRegion), ∀ r ∈ acceptRegions acc rest, r ∈ acc ∨ r ∈ rest
  | [], acc => fun r hr => Or.inl hr
  | region :: rest, acc => fun r hr => by
    rw [acceptRegions_cons] at hr
    split at hr
    · rcases acceptRegions_subset rest acc r hr with h | h
      · exact Or.inl h
      · exact Or.inr (List.mem_cons_of_mem _ h)
    · rcases acceptRegions_subset rest (acc ++ [region]) r hr with h | h
      · rcases List.mem_append.mp h with h | h
        · exact Or.inl h
        · exact Or.inr (List.mem_cons.mpr (Or.inl (List.mem_singleton.mp h)))
      · exact Or.inr (List.mem_cons_of_mem _ h)

/-- Accepted regions are never removed later. -/
theorem acceptRegions_acc_subset :
    ∀ (rest acc : List SRegion), ∀ r ∈ acc, r ∈ acceptRegions acc rest
  | [], acc => fun r hr => hr
  | region :: rest, acc => fun r hr => by
    rw [acceptRegions_cons]
    split
    · exact acceptRegions_acc_subset rest acc r hr
    · exact acceptRegions_acc_subset rest (acc ++ [region]) r (List.mem_append_left _ hr)

/-- Claim C9: For every non-empty input, `removeOverlappingRegions` returns a
non-empty subset of the input, and some region of maximal `faceScore` is
always in the output (the top-scoring candidate is never dropped). -/
theorem removeOverlappingRegions_best (regions : List SRegion) (hne : regions ≠ []) :
    removeOverlappingRegions regions ≠ [] ∧
    (∀ r ∈ removeOverlappingRegions regions, r ∈ regions) ∧
    ∃ r ∈ removeOverlappingRegions regions, ∀ q ∈ regions, q.faceScore ≤ r.faceScore := by
  unfold removeOverlappingRegions
  by_cases hlen : regions.length ≤ 1
  · rw [if_pos hlen]
    obtain ⟨x, hx⟩ : ∃ x, regions = [x] := by
      cases regions with
      | nil => exact absurd rfl hne
      | cons a t =>
        cases t with
        | nil => exact ⟨a, rfl⟩
        | cons b t' => simp at hlen
    subst hx
    refine ⟨by simp, fun r hr => hr, ⟨x, by simp, ?_⟩⟩
    intro q hq
    rw [List.mem_singleton] at hq
    subst hq
    exact le_refl _
  · rw [if_neg hlen]
    have hperm : (regions.mergeSort scoreLe).Perm regions :=
      List.mergeSort_perm regions scoreLe
    have hne' : regions.mergeSort scoreLe ≠ [] := by
      intro h
      have := hperm.length_eq
      rw [h] at this
      simp at this
      omega
    obtain ⟨h0, t, hcons⟩ := List.exists_cons_of_ne_nil hne'
    have hPairwise : List.Pairwise (fun x y => scoreLe x y = true)
        (regions.mergeSort scoreLe) :=
      List.sorted_mergeSort
        (fun x y z hxy hyz => by
          simp only [scoreLe, decide_eq_true_eq] at *
          exact le_trans hyz hxy)
        (fun x y => by
          simp only [scoreLe, Bool.or_eq_true, decide_eq_true_eq]
          exact le_total y.faceScore x.faceScore)
        regions
    have hmem0 : h0 ∈ acceptRegions [] (regions.mergeSort scoreLe) := by
      rw [hcons, acceptRegions_cons, overlapsExisting_nil]
      simp only [Bool.false_eq_true, if_false, List.nil_append]
      exact acceptRegions_acc_subset t [h0] h0 (List.mem_singleton_self _)
    refine ⟨List.ne_nil_of_mem hmem0, ?_, ⟨h0, hmem0, ?_⟩⟩
    · intro r hr
      rcases acceptRegions_subset (regions.mergeSort scoreLe) [] r hr with h | h
      · exact absurd h (List.not_mem_nil r)
      · exact hperm.subset h
    · intro q hq
      have hq' : q ∈ regions.mergeSort scoreLe := hperm.symm.subset hq
      rw [hcons] at hq'
      rcases List.mem_cons.mp hq' with h | h
      · subst h
        exact le_refl _
      · rw [hcons] at hPairwise
        have := (List.pairwise_cons.mp hPairwise).1 q h
        simpa [scoreLe, decide_eq_true_eq] using this

/-- Witness for C9 on a concrete singleton input. -/
theorem removeOverlappingRegions_best_witness :
    ([c3a] : List SRegion) ≠ [] ∧
    (removeOverlappingRegions [c3a] ≠ [] ∧
      (∀ r ∈ removeOverlappingRegions [c3a], r ∈ [c3a]) ∧
      ∃ r ∈ removeOverlappingRegions [c3a], ∀ q ∈ [c3a], q.faceScore ≤ r.faceScore) :=
  ⟨by decide, removeOverlappingRegions_best [c3a] (by decide)⟩

theorem detectLoop_nil (edgeBuffer : Buf) (acc : List SRegion) :
    detectLoop edgeBuffer acc [] = acc := rfl

theorem detectLoop_cons (edgeBuffer : Buf) (acc : List SRegion) (eThr rThr : ℕ)
    (rest : List (ℕ × ℕ)) :
    detectLoop edgeBuffer acc ((eThr, rThr) :: rest) =
      (if acc.length = 0 then
        detectLoop edgeBuffer (findFaceRegions edgeBuffer 400 400 eThr rThr) rest
      else acc) := rfl

/-- Claim C4: `detectFacesInImage` iterates the fixed ordered threshold-pair
list (40,25), (30,20), (20,15), running a detection pass for each pair and
stopping at the first pass whose accepted-region set is non-empty; if every
pass yields zero regions it fails with the no-face error, if the first
non-empty pass yields more than one region it fails with the multiple-faces
error carrying the count, and if it yields exactly one region that region
is returned — i.e. it equals the specification function `detectFacesSpec`
written from the spec's wording. -/
theorem detectFacesInImage_eq_spec (edgeBuffer : Buf) :
    detectFacesInImage edgeBuffer = detectFacesSpec edgeBuffer := by
  have himpl : detectFacesInImage edgeBuffer =
      (let faceRegions := detectLoop edgeBuffer [] thresholdPairs
       if faceRegions.length = 0 then .error .noFace
       else if maxFaces < faceRegions.length then
         .error (.multipleFaces faceRegions.length)
       else .ok faceRegions.headI) := rfl
  have hspec : detectFacesSpec edgeBuffer =
      ((((thresholdPairs.map
            (fun p => findFaceRegions edgeBuffer 400 400 p.1 p.2)).find?
          (fun rs => !rs.isEmpty)).map detectOutcome).getD (.error .noFace)) := rfl
  rw [himpl, hspec]
  simp only [thresholdPairs, maxFaces, List.map_cons, List.map_nil, detectLoop_cons,
    detectLoop_nil, List.length_nil]
  generalize findFaceRegions edgeBuffer 400 400 40 25 = l1
  generalize findFaceRegions edgeBuffer 400 400 30 20 = l2
  generalize findFaceRegions edgeBuffer 400 400 20 15 = l3
  rcases l1 with _ | ⟨a1, t1⟩
  · rcases l2 with _ | ⟨a2, t2⟩
    · rcases l3 with _ | ⟨a3, t3⟩
      · simp [List.find?, detectOutcome]
      · simp [List.find?, detectOutcome]
    · simp [List.find?, detectOutcome]
  · simp [List.find?, detectOutcome]

/-- Claim C6: For every image whose decoded metadata satisfies
`min(width,height) < 150` or `max(width,height) < 200`, the full pipeline
rejects with a `ValidationError`.  The image's pixel-level inputs (the
greyscale/edge resamples consumed by lighting, blur and edge analysis) are
universally quantified — the rejection is the same whatever they hold, i.e.
it happens before any pixel-level analysis can influence the outcome. -/
theorem processFaceImage_resolution_gate (img : Image)
    (hres : min img.meta.width img.meta.height < 150 ∨
      max img.meta.width img.meta.height < 200) :
    ∃ r, processFaceImage img = .error (.validation r) := by
  by_cases hfmt : supportedFormats.contains img.meta.format.toLower
  · refine ⟨.lowResolution, ?_⟩
    have hval : validateImageQuality img = .error (.validation .lowResolution) := by
      simp only [validateImageQuality]
      rw [if_neg (not_not_intro hfmt), if_pos hres]
    unfold processFaceImage
    rw [hval]
    rfl
  · refine ⟨.badFormat, ?_⟩
    have hval : validateImageQuality img = .error (.validation .badFormat) := by
      simp only [validateImageQuality]
      rw [if_pos hfmt]
    unfold processFaceImage
    rw [hval]
    rfl

/-- Witness for C6 on the concrete 100×300 image. -/
theorem processFaceImage_resolution_gate_witness :
    (min c6img.meta.width c6img.meta.height < 150 ∨
      max c6img.meta.width c6img.meta.height < 200) ∧
    ∃ r, processFaceImage c6img = .error (.validation r) :=
  ⟨by decide, processFaceImage_resolution_gate c6img (by decide)⟩

/-- Claim C10: Called directly, `preprocessImage` enforces only the 50×50
floor: under the codec contract that the 112×112 RGB resample has
`112·112·3` bytes, it accepts exactly the images with readable dimensions
at least 50×50 (an unreadable dimension is 0, below 50); and every buffer
it returns has exactly `112·112·3 = 37632` bytes, unconditionally. -/
theorem preprocessImage_spec (img : Image) :
    (∀ b, preprocessImage img = .ok b → b.len = 112 * 112 * 3) ∧
    (img.rgb112.len = targetSize * targetSize * 3 →
      ((∃ b, preprocessImage img = .ok b) ↔
        50 ≤ img.meta.width ∧ 50 ≤ img.meta.height)) := by
  constructor
  · intro b hb
    simp only [preprocessImage] at hb
    split_ifs at hb with h1 h2 h3
    have hbe : img.rgb112 = b := by simpa using hb
    rw [← hbe]
    have := not_ne_iff.mp h3
    simpa [targetSize] using this
  · intro hlen
    constructor
    · rintro ⟨b, hb⟩
      simp only [preprocessImage] at hb
      split_ifs at hb with h1 h2 h3
      push_neg at h1 h2
      omega
    · rintro ⟨hw, hh⟩
      refine ⟨img.rgb112, ?_⟩
      simp only [preprocessImage]
      rw [if_neg (by omega), if_neg (by omega), if_neg (not_ne_iff.mpr hlen)]

/-- Witness for C10 on the concrete 60×60 image. -/
theorem preprocessImage_spec_witness :
    c10img.rgb112.len = targetSize * targetSize * 3 ∧
    (∃ b, preprocessImage c10img = .ok b) ∧
    (∀ b, preprocessImage c10img = .ok b → b.len = 112 * 112 * 3) :=
  ⟨by decide, ((preprocessImage_spec c10img).2 (by decide)).mpr (by decide),
    (preprocessImage_spec c10img).1⟩

/-- Claim C8: For equal-length non-empty real vectors with nonzero magnitudes,
`calculateCosineSimilarity` is symmetric, always returns a value in
[-1, 1], and returns exactly 1 on a pair of identical vectors (the clamp
makes "approximately 1" exact in real arithmetic). -/
theorem calculateCosineSimilarity_props (a b : List ℝ)
    (hlen : a.length = b.length) (hne : a ≠ [])
    (hma : Real.sqrt (sumOfSquares a) ≠ 0) (hmb : Real.sqrt (sumOfSquares b) ≠ 0) :
    calculateCosineSimilarity a b = calculateCosineSimilarity b a ∧
    (∃ r, calculateCosineSimilarity a b = .ok r ∧ -1 ≤ r ∧ r ≤ 1) ∧
    calculateCosineSimilarity a a = .ok 1 := by
  have hlen0 : a.length ≠ 0 := by simpa [List.length_eq_zero] using hne
  have hlenb0 : b.length ≠ 0 := by omega
  have hcab : calculateCosineSimilarity a b =
      .ok (max (-1) (min 1 (dotProduct a b /
        (Real.sqrt (sumOfSquares a) * Real.sqrt (sumOfSquares b))))) := by
    simp only [calculateCosineSimilarity]
    rw [if_neg (not_not_intro hlen), if_neg hlen0,
      if_neg (by push_neg; exact ⟨hma, hmb⟩)]
  have hcba : calculateCosineSimilarity b a =
      .ok (max (-1) (min 1 (dotProduct b a /
        (Real.sqrt (sumOfSquares b) * Real.sqrt (sumOfSquares a))))) := by
    simp only [calculateCosineSimilarity]
    rw [if_neg (not_not_intro hlen.symm), if_neg hlenb0,
      if_neg (by push_neg; exact ⟨hmb, hma⟩)]
  have hcaa : calculateCosineSimilarity a a =
      .ok (max (-1) (min 1 (dotProduct a a /
        (Real.sqrt (sumOfSquares a) * Real.sqrt (sumOfSquares a))))) := by
    simp only [calculateCosineSimilarity]
    rw [if_neg (not_not_intro rfl), if_neg hlen0,
      if_neg (by push_neg; exact ⟨hma, hma⟩)]
  have hdotcomm : dotProduct a b = dotProduct b a := by
    unfold dotProduct
    rw [List.zipWith_comm_of_comm _ mul_comm]
  refine ⟨?_, ⟨_, hcab, le_max_left _ _, max_le (by norm_num) (min_le_left _ _)⟩, ?_⟩
  · rw [hcab, hcba, hdotcomm, mul_comm]
  · have hs0 : 0 ≤ sumOfSquares a := by
      unfold sumOfSquares
      apply List.sum_nonneg
      intro x hx
      obtain ⟨v, _, rfl⟩ := List.mem_map.mp hx
      exact mul_self_nonneg v
    have hsnz : sumOfSquares a ≠ 0 := fun h => hma (by rw [h, Real.sqrt_zero])
    have hdotaa : dotProduct a a = sumOfSquares a := by
      unfold dotProduct sumOfSquares
      rw [List.zipWith_same]
    rw [hcaa, hdotaa, Real.mul_self_sqrt hs0, div_self hsnz]
    norm_num

/-- Witness for C8 on the concrete vectors [3,4] and [4,3]. -/
theorem calculateCosineSimilarity_props_witness :
    (([3, 4] : List ℝ).length = ([4, 3] : List ℝ).length) ∧
    (([3, 4] : List ℝ) ≠ []) ∧
    Real.sqrt (sumOfSquares ([3, 4] : List ℝ)) ≠ 0 ∧
    Real.sqrt (sumOfSquares ([4, 3] : List ℝ)) ≠ 0 ∧
    (calculateCosineSimilarity [3, 4] [4, 3] = calculateCosineSimilarity [4, 3] [3, 4] ∧
      (∃ r, calculateCosineSimilarity [3, 4] [4, 3] = .ok r ∧ -1 ≤ r ∧ r ≤ 1) ∧
      calculateCosineSimilarity [3, 4] [3, 4] = .ok 1) := by
  have hsum1 : sumOfSquares ([3, 4] : List ℝ) = 25 := by norm_num [sumOfSquares]
  have hsum2 : sumOfSquares ([4, 3] : List ℝ) = 25 := by norm_num [sumOfSquares]
  have h1 : Real.sqrt (sumOfSquares ([3, 4] : List ℝ)) ≠ 0 := by
    rw [hsum1]
    exact Real.sqrt_ne_zero'.mpr (by norm_num)
  have h2 : Real.sqrt (sumOfSquares ([4, 3] : List ℝ)) ≠ 0 := by
    rw [hsum2]
    exact Real.sqrt_ne_zero'.mpr (by norm_num)
  exact ⟨rfl, by simp, h1, h2,
    calculateCosineSimilarity_props [3, 4] [4, 3] rfl (by simp) h1 h2⟩

/-- Predicate `sqrtLtQ d r` agrees with the real-number comparison `√d < r` for
non-negative `d` — justifying its use for the source's `Math.sqrt(x) < t`
tests (every `x` compared there is a sum of squares, hence non-negative). -/
theorem sqrtLtQ_iff_sqrt_lt (d r : ℚ) (hd : 0 ≤ d) :
    sqrtLtQ d r = true ↔ Real.sqrt (d : ℝ) < (r : ℝ) := by
  unfold sqrtLtQ
  simp only [Bool.and_eq_true, decide_eq_true_eq]
  constructor
  · rintro ⟨⟨_, hr⟩, hlt⟩
    rcases eq_or_lt_of_le hr with hr0 | hr0
    · exfalso
      rw [← hr0] at hlt
      simp at hlt
      exact absurd (lt_of_le_of_lt hd hlt) (lt_irrefl 0)
    · have hrR : (0 : ℝ) < (r : ℝ) := by exact_mod_cast hr0
      rw [Real.sqrt_lt' hrR]
      have : (d : ℝ) < (r : ℝ) * (r : ℝ) := by exact_mod_cast hlt
      nlinarith
  · intro hs
    have hr0 : (0 : ℝ) < (r : ℝ) :=
      lt_of_le_of_lt (Real.sqrt_nonneg (d : ℝ)) hs
    have hdlt : (d : ℝ) < (r : ℝ) ^ 2 := (Real.sqrt_lt' hr0).mp hs
    refine ⟨⟨hd, by exact_mod_cast le_of_lt hr0⟩, ?_⟩
    have : (d : ℝ) < (r : ℝ) * (r : ℝ) := by nlinarith
    exact_mod_cast this

/-- Counterexample to C1 as stated: `parseStoredEmbedding("[1,2,3]")` does
not return `[1,2,3]`; the array parses and is all-numeric, but its length 3
is below the 64 floor, so the call fails with the `EmbeddingFormatError`
reason `unusualSize 3`. -/
theorem parseStoredEmbedding_c1_counterexample :
    parseStoredEmbedding (.str "[1,2,3]") ≠
      .ok [Jv.num (.finite 1), Jv.num (.finite 2), Jv.num (.finite 3)] := by
  intro h
  have he : parseStoredEmbedding (.str "[1,2,3]") = .error (.unusualSize 3) := rfl
  rw [he] at h
  exact Except.noConfusion h

/-- Claim C1 (amended): `parseStoredEmbedding("[1,2,3]")` parses the array but
fails with `EmbeddingFormatError` because its length 3 is outside
`[64, 2048]`; `parseStoredEmbedding("[1,\"x\",3]")` fails with
`EmbeddingFormatError` because of the non-numeric element; a 64-element
all-numeric array is accepted and returned verbatim. -/
theorem parseStoredEmbedding_c1_amended :
    parseStoredEmbedding (.str "[1,2,3]") = .error (.unusualSize 3) ∧
    parseStoredEmbedding (.str "[1,\"x\",3]") = .error .nonNumericValues ∧
    parseStoredEmbedding (.arr (List.replicate 64 (Jv.num (.finite 1)))) =
      .ok (List.replicate 64 (Jv.num (.finite 1))) :=
  ⟨rfl, rfl, rfl⟩

/-- Every element of a validated embedding is a number other than `NaN`. -/
theorem validateParsedEmbedding_ok_elements {j : Jv} {l : List Jv}
    (h : validateParsedEmbedding j = .ok l) :
    ∀ v ∈ l, ∃ n : JsNum, v = Jv.num n ∧ n ≠ JsNum.nan := by
  cases j with
  | num n => exact absurd h (by simp [validateParsedEmbedding])
  | str s => exact absurd h (by simp [validateParsedEmbedding])
  | bool b => exact absurd h (by simp [validateParsedEmbedding])
  | null => exact absurd h (by simp [validateParsedEmbedding])
  | arr elems =>
    simp only [validateParsedEmbedding] at h
    split_ifs at h with hinv hlen
    have hel : elems = l := by simpa using h
    subst hel
    intro v hv
    have hfil : elems.filter (fun v => !isNumericElement v) = [] := by
      have hz : (elems.filter (fun v => !isNumericElement v)).length = 0 := by omega
      simpa [List.length_eq_zero] using hz
    have hnum : ¬(!isNumericElement v) = true := by
      intro hcon
      have hmem : v ∈ elems.filter (fun v => !isNumericElement v) :=
        List.mem_filter.mpr ⟨hv, hcon⟩
      rw [hfil] at hmem
      exact absurd hmem (List.not_mem_nil v)
    have hnum' : isNumericElement v = true := by simpa using hnum
    cases v with
    | num n =>
      cases n with
      | finite q => exact ⟨.finite q, rfl, fun hc => JsNum.noConfusion hc⟩
      | posInf => exact ⟨.posInf, rfl, fun hc => JsNum.noConfusion hc⟩
      | negInf => exact ⟨.negInf, rfl, fun hc => JsNum.noConfusion hc⟩
      | nan => exact absurd hnum' (by simp [isNumericElement])
    | str s => exact absurd hnum' (by simp [isNumericElement])
    | bool b => exact absurd hnum' (by simp [isNumericElement])
    | null => exact absurd hnum' (by simp [isNumericElement])
    | arr l2 => exact absurd hnum' (by simp [isNumericElement])

/-- Claim C5 (amended): Every embedding `parseStoredEmbedding` accepts
consists exclusively of numbers that are not `NaN`.  (The claim's stronger
"finite" is false on the code: the element check is
`typeof val === "number" && !isNaN(val)`, which `±Infinity` passes — see
the counterexample.) -/
theorem parseStoredEmbedding_elements (input : EmbeddingInput) (l : List Jv)
    (h : parseStoredEmbedding input = .ok l) :
    ∀ v ∈ l, ∃ n : JsNum, v = Jv.num n ∧ n ≠ JsNum.nan := by
  cases input with
  | str s =>
    simp only [parseStoredEmbedding] at h
    cases hj : jsonParse s with
    | none =>
      rw [hj] at h
      exact absurd h (by simp)
    | some parsed =>
      rw [hj] at h
      exact validateParsedEmbedding_ok_elements h
  | arr elems => exact validateParsedEmbedding_ok_elements (j := Jv.arr elems) h
  | other => exact absurd h (by simp [parseStoredEmbedding])

/-- Counterexample to C5 as stated: an array of 64 `Infinity` values is
accepted by `parseStoredEmbedding` (the `isNaN` filter passes infinities),
yet its elements are not finite numbers. -/
theorem parseStoredEmbedding_infinity_counterexample :
    parseStoredEmbedding (.arr (List.replicate 64 (Jv.num .posInf))) =
      .ok (List.replicate 64 (Jv.num .posInf)) ∧
    Jv.num .posInf ∈ List.replicate 64 (Jv.num .posInf) ∧
    (∀ q : ℚ, Jv.num JsNum.posInf ≠ Jv.num (JsNum.finite q)) := by
  refine ⟨rfl, List.mem_replicate.mpr ⟨by norm_num, rfl⟩, ?_⟩
  intro q hc
  injection hc with hn
  exact JsNum.noConfusion hn

/-- Witness for the amended C5 on a concrete accepted embedding. -/
theorem parseStoredEmbedding_elements_witness :
    parseStoredEmbedding (.arr (List.replicate 64 (Jv.num (.finite 1)))) =
      .ok (List.replicate 64 (Jv.num (.finite 1))) ∧
    ∀ v ∈ List.replicate 64 (Jv.num (JsNum.finite 1)),
      ∃ n : JsNum, v = Jv.num n ∧ n ≠ JsNum.nan :=
  ⟨rfl, parseStoredEmbedding_elements (.arr (List.replicate 64 (Jv.num (.finite 1)))) _ rfl⟩
